import Mathlib

/-!
# Verification of the FeedbackFlow incremental clustering engine

Shallow embedding of the `ClusteringService` class from
`src/feedbackflow-backend/src/services/clusteringService.ts`.

Modelling conventions:
* JavaScript numbers are modelled as exact real numbers (`ℝ`); `Math.sqrt` is
  `Real.sqrt`.  `NaN` is not representable in this model, so the `isNaN` guards
  of the source can never fire; they are noted where they occur.
* Thrown `ValidationError`s are modelled with `Except Err`; a thrown error is
  `.error`, a normal return is `.ok`.
* A sentence id at runtime is a JS value that may be a number or a string
  (the dynamic `typeof` checks in the source inspect it), modelled as
  `Int ⊕ String`.
* The impure `generateClusterId` (built from `Date.now()` and `Math.random()`)
  is modelled by an explicit generator `idGen : ℕ → String` mapping the
  creation index of a cluster to its id; one invocation of the service
  corresponds to one (arbitrary) generator.
* For every effectful source function there is also a `...Value`/`...Pure`
  function computing the value it produces when it does not throw; bridge
  lemmas relate the two.
-/

namespace ClusteringService

/-- Runtime value of a sentence id: a number or a string. -/
abbrev SId := Int ⊕ String

instance : BEq SId := instBEqOfDecidableEq

instance : LawfulBEq SId :=
  ⟨by intro a b h; simpa [instBEqOfDecidableEq, decide_eq_true_iff] using h,
   by intro a; simp [instBEqOfDecidableEq]⟩

/-- `interface SentenceWithEmbedding` of the source. -/
structure SentenceWithEmbedding where
  id : SId
  text : String
  embedding : List ℝ

/-- `interface Cluster` of the source. -/
structure Cluster where
  id : String
  sentenceIds : List SId
  centroid : List ℝ
  theme : String
  confidence : ℝ

/-- The `ClusterResult` shape returned by `clusterSentences`. -/
structure ClusterResult where
  clusters : List Cluster
  outliers : List SId

/-- The only error class thrown by the service is `ValidationError(message)`. -/
inductive Err where
  | validationError (message : String)
deriving DecidableEq

abbrev M (α : Type) := Except Err α

def defaultThreshold : ℝ := 0.3
def minClusterSize : ℕ := 2
def maxClusters : ℕ := 50

/-- `!sentence.id || typeof sentence.id !== 'number'`: the truthy numbers are
exactly the nonzero ones (`NaN` is not representable in this model). -/
def validNumericId (id : SId) : Bool :=
  match id with
  | .inl n => n != 0
  | .inr _ => false

/-- The per-index body of the `sentences.forEach` validation loop.
`text.trim() === ''` holds exactly when every character of the text is
whitespace, which is how the check is modelled here.  The final
`embedding.some(val => typeof val !== 'number' || isNaN(val))` check is
vacuous over `ℝ` and therefore omitted. -/
def validateSentence (index : ℕ) (sentence : SentenceWithEmbedding) : M Unit :=
  if !validNumericId sentence.id then
    .error (.validationError ("Sentence at index " ++ toString index ++ " must have a valid numeric id"))
  else if sentence.text = "" ∨ sentence.text.data.all Char.isWhitespace then
    .error (.validationError ("Sentence at index " ++ toString index ++ " must have valid text"))
  else if sentence.embedding.isEmpty then
    .error (.validationError ("Sentence at index " ++ toString index ++ " must have a valid embedding array"))
  else
    .ok ()

def validateEach : ℕ → List SentenceWithEmbedding → M Unit
  | _, [] => .ok ()
  | index, sentence :: rest => do
    validateSentence index sentence
    validateEach (index + 1) rest

/-- `private validateSentences(sentences)` of the source. -/
def validateSentences (sentences : List SentenceWithEmbedding) : M Unit := do
  if sentences.isEmpty then
    throw (.validationError "Sentences array cannot be empty")
  if 10000 < sentences.length then
    throw (.validationError "Too many sentences to cluster (max 10,000)")
  validateEach 0 sentences
  match sentences with
  | [] => .ok ()
  | s0 :: _ =>
    if sentences.any (fun s => s.embedding.length != s0.embedding.length) then
      throw (.validationError "All embeddings must have the same dimension")
    else
      .ok ()

/-- `private validateThreshold(threshold)`; the `isNaN` guard is vacuous. -/
noncomputable def validateThreshold (threshold : ℝ) : M Unit :=
  if threshold < 0 ∨ 1 < threshold then
    .error (.validationError "Threshold must be between 0 and 1")
  else
    .ok ()

/-- The dot-product accumulator of `cosineDistance` (both operands are always
defined once the lengths agree). -/
def dotProduct (a b : List ℝ) : ℝ := (List.zipWith (· * ·) a b).sum

/-- The `normA`/`normB` accumulators of `cosineDistance` before `Math.sqrt`. -/
def sumSquares (a : List ℝ) : ℝ := (a.map (fun v => v * v)).sum

/-- The value computed by `cosineDistance` when the lengths agree. -/
noncomputable def cosineDistanceValue (a b : List ℝ) : ℝ :=
  let dotProd := dotProduct a b
  let normA := Real.sqrt (sumSquares a)
  let normB := Real.sqrt (sumSquares b)
  if normA = 0 ∨ normB = 0 then 1
  else 1 - dotProd / (normA * normB)

/-- `private cosineDistance(a, b)` of the source. -/
noncomputable def cosineDistance (a b : List ℝ) : M ℝ :=
  if a.length ≠ b.length then
    .error (.validationError "Vectors must have the same dimension")
  else
    .ok (cosineDistanceValue a b)

noncomputable def cosineSimilarityValue (a b : List ℝ) : ℝ := 1 - cosineDistanceValue a b

/-- `private cosineSimilarity(a, b) = 1 - cosineDistance(a, b)`. -/
noncomputable def cosineSimilarity (a b : List ℝ) : M ℝ := do
  let d ← cosineDistance a b
  return 1 - d

/-- The vector produced by `updateCentroid` when the lengths agree:
`(current[i]*(count-1) + newPoint[i]) / count` in each dimension. -/
noncomputable def updateCentroidValue (current newPoint : List ℝ) (count : ℕ) : List ℝ :=
  List.zipWith (fun val newVal => (val * ((count : ℝ) - 1) + newVal) / (count : ℝ)) current newPoint

/-- `private updateCentroid(current, newPoint, count)` of the source. -/
noncomputable def updateCentroid (current newPoint : List ℝ) (count : ℕ) : M (List ℝ) :=
  if current.length ≠ newPoint.length then
    .error (.validationError "Vectors must have the same dimension")
  else
    .ok (updateCentroidValue current newPoint count)

def stopWords : List String :=
  ["the", "and", "or", "but", "in", "on", "at", "to", "for", "of", "with", "by"]

/-- One step of the `wordCounts` JS `Map` update; a JS `Map` enumerates its
entries in first-insertion order. -/
def countWord (counts : List (String × ℕ)) (word : String) : List (String × ℕ) :=
  if counts.any (fun p => p.1 == word) then
    counts.map (fun p => if p.1 == word then (p.1, p.2 + 1) else p)
  else
    counts ++ [(word, 1)]

def insertByCount (entry : String × ℕ) : List (String × ℕ) → List (String × ℕ)
  | [] => [entry]
  | e :: es => if entry.2 < e.2 then e :: insertByCount entry es else entry :: e :: es

/-- Stable descending sort by count: the behaviour of
`sort((a, b) => b[1] - a[1])` (V8's `Array.prototype.sort` is stable). -/
def sortByCountDesc : List (String × ℕ) → List (String × ℕ)
  | [] => []
  | e :: es => insertByCount e (sortByCountDesc es)

/-- `private generateTheme(sentences)` of the source.  JS
`split(/\s+/)` may additionally produce empty fragments compared to splitting
on single whitespace characters, but all such fragments are removed by the
`length > 3` filter, after which the token lists coincide. -/
def generateTheme (sentences : List SentenceWithEmbedding) : String :=
  if sentences.isEmpty then "Empty cluster"
  else
    let allWords :=
      ((sentences.flatMap (fun s => s.text.toLower.split Char.isWhitespace)).filter
        (fun word => decide (3 < word.length))).filter
        (fun word => !stopWords.contains word)
    let wordCounts := allWords.foldl countWord []
    let sortedWords := ((sortByCountDesc wordCounts).take 3).map Prod.fst
    if sortedWords.isEmpty then "General feedback"
    else String.intercalate ", " sortedWords

/-- The value computed by `calculateClusterConfidence` when no similarity
computation throws. -/
noncomputable def confidenceValue (sentences : List SentenceWithEmbedding)
    (centroid : List ℝ) : ℝ :=
  if sentences.isEmpty then 0
  else
    let similarities := sentences.map (fun s => cosineSimilarityValue s.embedding centroid)
    let averageSimilarity := similarities.sum / (similarities.length : ℝ)
    let confidence := max 0 (min 1 averageSimilarity)
    let sizeBoost := min 0.1 ((sentences.length : ℝ) * 0.01)
    min 1 (confidence + sizeBoost)

/-- `private calculateClusterConfidence(sentences, centroid)` of the source. -/
noncomputable def calculateClusterConfidence (sentences : List SentenceWithEmbedding)
    (centroid : List ℝ) : M ℝ :=
  if sentences.isEmpty then .ok 0
  else do
    let similarities ← sentences.mapM (fun s => cosineSimilarity s.embedding centroid)
    let averageSimilarity := similarities.sum / (similarities.length : ℝ)
    let confidence := max 0 (min 1 averageSimilarity)
    let sizeBoost := min 0.1 ((sentences.length : ℝ) * 0.01)
    return min 1 (confidence + sizeBoost)

/-- Loop state of the single pass inside `clusterSentences`: the growing
cluster array and the `processed` id set (as an insertion list). -/
structure PassState where
  clusters : List Cluster
  processed : List SId

/-- The `for (const cluster of clusters)` search for the best matching
cluster.  A JS object reference into the array is modelled as the pair of the
index and the value of the referenced cluster. -/
noncomputable def findBestAux (threshold : ℝ) (embedding : List ℝ) :
    List Cluster → ℕ → Option (ℕ × Cluster) → ℝ → M (Option (ℕ × Cluster) × ℝ)
  | [], _, best, bestSim => .ok (best, bestSim)
  | cluster :: rest, i, best, bestSim => do
    let similarity ← cosineSimilarity embedding cluster.centroid
    if threshold < similarity ∧ bestSim < similarity then
      findBestAux threshold embedding rest (i + 1) (some (i, cluster)) similarity
    else
      findBestAux threshold embedding rest (i + 1) best bestSim

noncomputable def findBestCluster (threshold : ℝ) (embedding : List ℝ)
    (clusters : List Cluster) : M (Option (ℕ × Cluster) × ℝ) :=
  findBestAux threshold embedding clusters 0 none 0

/-- The body of the main `for (const sentence of sentenceList)` loop for a
sentence that is not skipped.  In the source the `push` and the centroid
assignment mutate the best cluster inside the array (`clusters1`), and the
separately built `updatedCluster` is then written at the index found by
`findIndex(c => c.id === bestCluster.id)`. -/
noncomputable def assignSentence (idGen : ℕ → String)
    (sentenceList : List SentenceWithEmbedding) (threshold : ℝ)
    (st : PassState) (nextId : ℕ) (sentence : SentenceWithEmbedding) :
    M (PassState × ℕ) := do
  let (best, _) ← findBestCluster threshold sentence.embedding st.clusters
  match best with
  | some (j, bestCluster) =>
    let withMember : Cluster :=
      { bestCluster with sentenceIds := bestCluster.sentenceIds ++ [sentence.id] }
    let memberSentences := sentenceList.filter (fun s => withMember.sentenceIds.contains s.id)
    let newCentroid ← updateCentroid bestCluster.centroid sentence.embedding
      withMember.sentenceIds.length
    let mutated : Cluster := { withMember with centroid := newCentroid }
    let clusters1 := st.clusters.set j mutated
    let confidence ← calculateClusterConfidence memberSentences newCentroid
    let updatedCluster : Cluster :=
      { mutated with theme := generateTheme memberSentences, confidence := confidence }
    let clusterIndex := clusters1.findIdx (fun c => c.id == bestCluster.id)
    let clusters2 :=
      if clusterIndex < clusters1.length then clusters1.set clusterIndex updatedCluster
      else clusters1
    return ({ clusters := clusters2, processed := sentence.id :: st.processed }, nextId)
  | none =>
    let confidence ← calculateClusterConfidence [sentence] sentence.embedding
    let newCluster : Cluster :=
      { id := idGen nextId
        sentenceIds := [sentence.id]
        centroid := sentence.embedding
        theme := generateTheme [sentence]
        confidence := confidence }
    return ({ clusters := st.clusters ++ [newCluster], processed := sentence.id :: st.processed },
      nextId + 1)

/-- The main loop of `clusterSentences`: skip already-processed ids
(`continue`), otherwise run the body and `break` once
`clusters.length >= maxClusters`. -/
noncomputable def passLoop (idGen : ℕ → String) (sentenceList : List SentenceWithEmbedding)
    (threshold : ℝ) : PassState → ℕ → List SentenceWithEmbedding → M (PassState × ℕ)
  | st, nextId, [] => .ok (st, nextId)
  | st, nextId, sentence :: rest =>
    if sentence.id ∈ st.processed then passLoop idGen sentenceList threshold st nextId rest
    else do
      let (st', nextId') ← assignSentence idGen sentenceList threshold st nextId sentence
      if maxClusters ≤ st'.clusters.length then .ok (st', nextId')
      else passLoop idGen sentenceList threshold st' nextId' rest

def insertClusterBySize (c : Cluster) : List Cluster → List Cluster
  | [] => [c]
  | d :: ds =>
    if c.sentenceIds.length < d.sentenceIds.length then d :: insertClusterBySize c ds
    else c :: d :: ds

/-- Stable descending sort by member count: the behaviour of
`validClusters.sort((a, b) => b.sentenceIds.length - a.sentenceIds.length)`. -/
def sortClustersBySizeDesc : List Cluster → List Cluster
  | [] => []
  | c :: cs => insertClusterBySize c (sortClustersBySizeDesc cs)

/-- The post-pass phase of `clusterSentences`: dissolve clusters smaller than
`minClusterSize` into `outliers`, sort the kept clusters by size (largest
first) and return defensive copies (copies are identities here). -/
def finalizeResult (st : PassState) : ClusterResult :=
  let validClusters := st.clusters.filter (fun c => decide (minClusterSize ≤ c.sentenceIds.length))
  let outliers :=
    (st.clusters.filter (fun c => !decide (minClusterSize ≤ c.sentenceIds.length))).flatMap
      (fun c => c.sentenceIds)
  { clusters := sortClustersBySizeDesc validClusters, outliers := outliers }

/-- `public async clusterSentences(sentences, threshold)` of the source. -/
noncomputable def clusterSentences (idGen : ℕ → String)
    (sentences : List SentenceWithEmbedding) (threshold : ℝ) : M ClusterResult := do
  validateSentences sentences
  validateThreshold threshold
  let (st, _) ← passLoop idGen sentences threshold { clusters := [], processed := [] } 0 sentences
  return finalizeResult st

/-- The centroid map of `mergeClusters`: dimensions missing from
`cluster2.centroid` keep the value from `cluster1.centroid`. -/
noncomputable def weightedCentroid (weight1 weight2 : ℝ) : List ℝ → List ℝ → List ℝ
  | [], _ => []
  | val :: vs, [] => val :: weightedCentroid weight1 weight2 vs []
  | val :: vs, val2 :: v2s => (val * weight1 + val2 * weight2) :: weightedCentroid weight1 weight2 vs v2s

/-- `public async mergeClusters(cluster1, cluster2, sentences)` of the source;
the fresh `generateClusterId()` output is the explicit `newId` argument. -/
noncomputable def mergeClusters (newId : String) (cluster1 cluster2 : Cluster)
    (sentences : List SentenceWithEmbedding) : M Cluster := do
  if cluster1.sentenceIds.isEmpty ∨ cluster2.sentenceIds.isEmpty then
    throw (.validationError "Cannot merge empty clusters")
  let mergedSentenceIds := cluster1.sentenceIds ++ cluster2.sentenceIds
  let mergedSentences := sentences.filter (fun s => mergedSentenceIds.contains s.id)
  if mergedSentences.length ≠ mergedSentenceIds.length then
    throw (.validationError "Some sentences not found in the provided sentences array")
  let totalSentences := mergedSentenceIds.length
  let weight1 := (cluster1.sentenceIds.length : ℝ) / (totalSentences : ℝ)
  let weight2 := (cluster2.sentenceIds.length : ℝ) / (totalSentences : ℝ)
  let newCentroid := weightedCentroid weight1 weight2 cluster1.centroid cluster2.centroid
  let confidence ← calculateClusterConfidence mergedSentences newCentroid
  return { id := newId
           sentenceIds := mergedSentenceIds
           centroid := newCentroid
           theme := generateTheme mergedSentences
           confidence := confidence }

/-! ## Pure mirrors of the effectful pass

These compute the values the pass produces when no dimension check throws;
bridge lemmas below relate them to the effectful definitions. -/

noncomputable def bestPure (threshold : ℝ) (embedding : List ℝ) :
    List Cluster → ℕ → Option (ℕ × Cluster) × ℝ → Option (ℕ × Cluster) × ℝ
  | [], _, acc => acc
  | cluster :: rest, i, acc =>
    let similarity := cosineSimilarityValue embedding cluster.centroid
    if threshold < similarity ∧ acc.2 < similarity then
      bestPure threshold embedding rest (i + 1) (some (i, cluster), similarity)
    else
      bestPure threshold embedding rest (i + 1) acc

noncomputable def assignPure (idGen : ℕ → String)
    (sentenceList : List SentenceWithEmbedding) (threshold : ℝ)
    (st : PassState) (nextId : ℕ) (sentence : SentenceWithEmbedding) : PassState × ℕ :=
  match (bestPure threshold sentence.embedding st.clusters 0 (none, 0)).1 with
  | some (j, bestCluster) =>
    let withMember : Cluster :=
      { bestCluster with sentenceIds := bestCluster.sentenceIds ++ [sentence.id] }
    let memberSentences := sentenceList.filter (fun s => withMember.sentenceIds.contains s.id)
    let newCentroid := updateCentroidValue bestCluster.centroid sentence.embedding
      withMember.sentenceIds.length
    let mutated : Cluster := { withMember with centroid := newCentroid }
    let clusters1 := st.clusters.set j mutated
    let updatedCluster : Cluster :=
      { mutated with
        theme := generateTheme memberSentences
        confidence := confidenceValue memberSentences newCentroid }
    let clusterIndex := clusters1.findIdx (fun c => c.id == bestCluster.id)
    let clusters2 :=
      if clusterIndex < clusters1.length then clusters1.set clusterIndex updatedCluster
      else clusters1
    ({ clusters := clusters2, processed := sentence.id :: st.processed }, nextId)
  | none =>
    let newCluster : Cluster :=
      { id := idGen nextId
        sentenceIds := [sentence.id]
        centroid := sentence.embedding
        theme := generateTheme [sentence]
        confidence := confidenceValue [sentence] sentence.embedding }
    ({ clusters := st.clusters ++ [newCluster], processed := sentence.id :: st.processed },
      nextId + 1)

noncomputable def loopPure (idGen : ℕ → String) (sentenceList : List SentenceWithEmbedding)
    (threshold : ℝ) : PassState → ℕ → List SentenceWithEmbedding → PassState × ℕ
  | st, nextId, [] => (st, nextId)
  | st, nextId, sentence :: rest =>
    if sentence.id ∈ st.processed then loopPure idGen sentenceList threshold st nextId rest
    else
      let p := assignPure idGen sentenceList threshold st nextId sentence
      if maxClusters ≤ p.1.clusters.length then p
      else loopPure idGen sentenceList threshold p.1 p.2 rest

/-! ## Derived notions used by the specification claims -/

/-- The embedding associated to an id by the input list (first occurrence, as
found by the skip-duplicates rule of the pass). -/
def embeddingOf (sentenceList : List SentenceWithEmbedding) (i : SId) : List ℝ :=
  match sentenceList.find? (fun s => s.id == i) with
  | some s => s.embedding
  | none => []

def vecSum (dim : ℕ) (vs : List (List ℝ)) : List ℝ :=
  vs.foldl (fun acc v => List.zipWith (· + ·) acc v) (List.replicate dim 0)

/-- The arithmetic mean of a list of vectors of dimension `dim`, computed from
scratch. -/
noncomputable def meanVec (dim : ℕ) (vs : List (List ℝ)) : List ℝ :=
  (vecSum dim vs).map (fun x => x / (vs.length : ℝ))

/-- The ids assigned to clusters by a result, in cluster order. -/
def assignedIds (r : ClusterResult) : List SId := r.clusters.flatMap (fun c => c.sentenceIds)

/-- A cluster with the generated id erased: the part of a cluster that is
deterministic across runs. -/
def stripId (c : Cluster) : Cluster :=
  { c with id := "" }

/-- A result with all generated cluster ids erased. -/
def stripResult (r : ClusterResult) : ClusterResult :=
  { clusters := r.clusters.map stripId, outliers := r.outliers }

end ClusteringService

namespace ClusteringService

/-! ## Bridge lemmas between the effectful functions and their pure values -/

theorem cosineDistance_error {a b : List ℝ} (h : a.length ≠ b.length) :
    cosineDistance a b = .error (.validationError "Vectors must have the same dimension") := by
  simp [cosineDistance, h]

theorem cosineDistance_ok {a b : List ℝ} (h : a.length = b.length) :
    cosineDistance a b = .ok (cosineDistanceValue a b) := by
  simp [cosineDistance, h]

theorem cosineSimilarity_ok {a b : List ℝ} (h : a.length = b.length) :
    cosineSimilarity a b = .ok (cosineSimilarityValue a b) := by
  rw [cosineSimilarity, cosineDistance_ok h]
  rfl

theorem updateCentroid_ok {current newPoint : List ℝ} (count : ℕ)
    (h : current.length = newPoint.length) :
    updateCentroid current newPoint count = .ok (updateCentroidValue current newPoint count) := by
  simp [updateCentroid, h]

theorem mapM_cosineSimilarity {centroid : List ℝ} {sentences : List SentenceWithEmbedding}
    (h : ∀ s ∈ sentences, s.embedding.length = centroid.length) :
    sentences.mapM (fun s => cosineSimilarity s.embedding centroid) =
      .ok (sentences.map (fun s => cosineSimilarityValue s.embedding centroid)) := by
  induction sentences with
  | nil => rfl
  | cons s rest ih =>
    rw [List.mapM_cons, cosineSimilarity_ok (h s (by simp)),
      ih (fun x hx => h x (List.mem_cons_of_mem _ hx))]
    rfl

theorem calculateClusterConfidence_ok {centroid : List ℝ}
    {sentences : List SentenceWithEmbedding}
    (h : ∀ s ∈ sentences, s.embedding.length = centroid.length) :
    calculateClusterConfidence sentences centroid = .ok (confidenceValue sentences centroid) := by
  by_cases he : sentences.isEmpty
  · simp [calculateClusterConfidence, confidenceValue, he]
  · rw [calculateClusterConfidence, if_neg he, mapM_cosineSimilarity h]
    simp [confidenceValue, he]

theorem findBestAux_ok {threshold : ℝ} {embedding : List ℝ} {clusters : List Cluster}
    (h : ∀ c ∈ clusters, c.centroid.length = embedding.length) :
    ∀ (i : ℕ) (best : Option (ℕ × Cluster)) (bestSim : ℝ),
      findBestAux threshold embedding clusters i best bestSim =
        .ok (bestPure threshold embedding clusters i (best, bestSim)) := by
  induction clusters with
  | nil => intro i best bestSim; rfl
  | cons c rest ih =>
    intro i best bestSim
    rw [findBestAux, cosineSimilarity_ok (h c (by simp)).symm]
    show Except.bind _ _ = _
    rw [Except.bind]
    by_cases hc : threshold < cosineSimilarityValue embedding c.centroid ∧
        bestSim < cosineSimilarityValue embedding c.centroid
    · rw [if_pos hc, ih (fun x hx => h x (List.mem_cons_of_mem _ hx))]
      rw [bestPure, if_pos hc]
    · rw [if_neg hc, ih (fun x hx => h x (List.mem_cons_of_mem _ hx))]
      rw [bestPure, if_neg hc]

theorem findBestCluster_ok {threshold : ℝ} {embedding : List ℝ} {clusters : List Cluster}
    (h : ∀ c ∈ clusters, c.centroid.length = embedding.length) :
    findBestCluster threshold embedding clusters =
      .ok (bestPure threshold embedding clusters 0 (none, 0)) :=
  findBestAux_ok h 0 none 0

end ClusteringService

namespace ClusteringService

/-- Full characterisation of the best-cluster fold: the accumulator's best
similarity never decreases, the final best similarity dominates every
qualifying cluster, and the outcome is either the untouched accumulator or a
cluster of the list that strictly beats the accumulator and every qualifying
cluster before it. -/
theorem bestPure_spec (threshold : ℝ) (embedding : List ℝ) :
    ∀ (clusters : List Cluster) (i0 : ℕ) (acc : Option (ℕ × Cluster) × ℝ),
      acc.2 ≤ (bestPure threshold embedding clusters i0 acc).2 ∧
      (∀ (k : ℕ) (hk : k < clusters.length),
        threshold < cosineSimilarityValue embedding (clusters.get ⟨k, hk⟩).centroid →
        cosineSimilarityValue embedding (clusters.get ⟨k, hk⟩).centroid ≤
          (bestPure threshold embedding clusters i0 acc).2) ∧
      (bestPure threshold embedding clusters i0 acc = acc ∨
        ∃ (k : ℕ) (hk : k < clusters.length),
          (bestPure threshold embedding clusters i0 acc).1 =
            some (i0 + k, clusters.get ⟨k, hk⟩) ∧
          (bestPure threshold embedding clusters i0 acc).2 =
            cosineSimilarityValue embedding (clusters.get ⟨k, hk⟩).centroid ∧
          threshold < cosineSimilarityValue embedding (clusters.get ⟨k, hk⟩).centroid ∧
          acc.2 < cosineSimilarityValue embedding (clusters.get ⟨k, hk⟩).centroid ∧
          (∀ (m : ℕ) (hm : m < clusters.length), m < k →
            threshold < cosineSimilarityValue embedding (clusters.get ⟨m, hm⟩).centroid →
            cosineSimilarityValue embedding (clusters.get ⟨m, hm⟩).centroid <
              cosineSimilarityValue embedding (clusters.get ⟨k, hk⟩).centroid)) := by
  intro clusters
  induction clusters with
  | nil =>
    intro i0 acc
    refine ⟨le_refl _, ?_, Or.inl rfl⟩
    intro k hk
    exact absurd hk (by simp)
  | cons c rest ih =>
    intro i0 acc
    by_cases hc : threshold < cosineSimilarityValue embedding c.centroid ∧
        acc.2 < cosineSimilarityValue embedding c.centroid
    · have hstep : bestPure threshold embedding (c :: rest) i0 acc =
          bestPure threshold embedding rest (i0 + 1)
            (some (i0, c), cosineSimilarityValue embedding c.centroid) := by
        rw [bestPure, if_pos hc]
      obtain ⟨ha, hb, hcases⟩ :=
        ih (i0 + 1) (some (i0, c), cosineSimilarityValue embedding c.centroid)
      rw [hstep]
      refine ⟨le_of_lt (lt_of_lt_of_le hc.2 ha), ?_, ?_⟩
      · intro k hk hthr
        match k with
        | 0 => exact ha
        | (m + 1) => exact hb m (by simpa using hk) hthr
      · rcases hcases with heq | ⟨k, hk, h1, h2, h3, h4, h5⟩
        · refine Or.inr ⟨0, by simp, ?_, ?_, hc.1, hc.2, ?_⟩
          · rw [heq]; simp
          · rw [heq]; rfl
          · intro m hm hmk; omega
        · refine Or.inr ⟨k + 1, by simpa using hk, ?_, h2, h3, lt_trans hc.2 h4, ?_⟩
          · rw [h1]; congr 2; omega
          · intro m hm hmk hthr
            match m with
            | 0 => exact lt_of_le_of_lt (le_of_eq rfl) h4
            | (m' + 1) => exact h5 m' (by simpa using hm) (by omega) hthr
    · have hstep : bestPure threshold embedding (c :: rest) i0 acc =
          bestPure threshold embedding rest (i0 + 1) acc := by
        rw [bestPure, if_neg hc]
      obtain ⟨ha, hb, hcases⟩ := ih (i0 + 1) acc
      rw [hstep]
      have hc0 : threshold < cosineSimilarityValue embedding c.centroid →
          cosineSimilarityValue embedding c.centroid ≤ acc.2 := by
        intro hthr
        by_contra hlt
        exact hc ⟨hthr, lt_of_not_le hlt⟩
      refine ⟨ha, ?_, ?_⟩
      · intro k hk hthr
        match k with
        | 0 => exact le_trans (hc0 hthr) ha
        | (m + 1) => exact hb m (by simpa using hk) hthr
      · rcases hcases with heq | ⟨k, hk, h1, h2, h3, h4, h5⟩
        · exact Or.inl heq
        · refine Or.inr ⟨k + 1, by simpa using hk, ?_, h2, h3, h4, ?_⟩
          · rw [h1]; congr 2; omega
          · intro m hm hmk hthr
            match m with
            | 0 => exact lt_of_le_of_lt (hc0 hthr) h4
            | (m' + 1) => exact h5 m' (by simpa using hm) (by omega) hthr

/-- At the top level, a `none` outcome of the search means no cluster was
strictly above the threshold (for the thresholds in `[0,1]` used by the
pass). -/
theorem bestPure_none {threshold : ℝ} {embedding : List ℝ} {clusters : List Cluster}
    (ht : 0 ≤ threshold)
    (h : (bestPure threshold embedding clusters 0 (none, 0)).1 = none) :
    bestPure threshold embedding clusters 0 (none, 0) = (none, 0) ∧
      ∀ (k : ℕ) (hk : k < clusters.length),
        cosineSimilarityValue embedding (clusters.get ⟨k, hk⟩).centroid ≤ threshold := by
  obtain ⟨-, hb, hcases⟩ := bestPure_spec threshold embedding clusters 0 (none, 0)
  rcases hcases with heq | ⟨k, hk, h1, -, -, -, -⟩
  · refine ⟨heq, ?_⟩
    intro k hk
    by_contra hgt
    have := hb k hk (lt_of_not_le hgt)
    rw [heq] at this
    exact hgt (le_trans this ht)
  · rw [h1] at h; exact absurd h (by simp)

/-- At the top level, a `some` outcome of the search is the first cluster
realising the maximal similarity among the clusters strictly above the
threshold. -/
theorem bestPure_some {threshold : ℝ} {embedding : List ℝ} {clusters : List Cluster}
    {j : ℕ} {bc : Cluster}
    (h : (bestPure threshold embedding clusters 0 (none, 0)).1 = some (j, bc)) :
    ∃ hj : j < clusters.length,
      bc = clusters.get ⟨j, hj⟩ ∧
      (bestPure threshold embedding clusters 0 (none, 0)).2 =
        cosineSimilarityValue embedding bc.centroid ∧
      threshold < cosineSimilarityValue embedding bc.centroid ∧
      (∀ (m : ℕ) (hm : m < clusters.length),
        threshold < cosineSimilarityValue embedding (clusters.get ⟨m, hm⟩).centroid →
        cosineSimilarityValue embedding (clusters.get ⟨m, hm⟩).centroid ≤
          cosineSimilarityValue embedding bc.centroid) ∧
      (∀ (m : ℕ) (hm : m < clusters.length), m < j →
        threshold < cosineSimilarityValue embedding (clusters.get ⟨m, hm⟩).centroid →
        cosineSimilarityValue embedding (clusters.get ⟨m, hm⟩).centroid <
          cosineSimilarityValue embedding bc.centroid) := by
  obtain ⟨-, hb, hcases⟩ := bestPure_spec threshold embedding clusters 0 (none, 0)
  rcases hcases with heq | ⟨k, hk, h1, h2, h3, -, h5⟩
  · rw [heq] at h; exact absurd h (by simp)
  · rw [h1] at h
    obtain ⟨hjk, hbc⟩ : 0 + k = j ∧ clusters.get ⟨k, hk⟩ = bc := by
      simpa [Option.some.injEq, Prod.mk.injEq] using h
    subst hbc
    obtain rfl : j = k := by omega
    refine ⟨hk, rfl, h2, h3, ?_, h5⟩
    intro m hm hthr
    have := hb m hm hthr
    rw [h2] at this
    exact this

end ClusteringService

namespace ClusteringService

theorem m_ok_bind {α β : Type} {a : α} {f : α → M β} : ((Except.ok a : M α) >>= f) = f a := rfl

theorem m_error_bind {α β : Type} {e : Err} {f : α → M β} :
    ((Except.error e : M α) >>= f) = .error e := rfl

theorem m_throw_eq {α : Type} {e : Err} : (throw e : M α) = .error e := rfl

theorem updateCentroidValue_length (current newPoint : List ℝ) (count : ℕ) :
    (updateCentroidValue current newPoint count).length =
      min current.length newPoint.length := by
  simp [updateCentroidValue]

theorem assignSentence_ok {idGen : ℕ → String} {pool : List SentenceWithEmbedding}
    {threshold : ℝ} {st : PassState} {nextId : ℕ} {s : SentenceWithEmbedding}
    (hpool : ∀ p ∈ pool, p.embedding.length = s.embedding.length)
    (hclusters : ∀ c ∈ st.clusters, c.centroid.length = s.embedding.length) :
    assignSentence idGen pool threshold st nextId s =
      .ok (assignPure idGen pool threshold st nextId s) := by
  unfold assignSentence assignPure findBestCluster
  rw [findBestAux_ok hclusters, m_ok_bind]
  rcases hbp : bestPure threshold s.embedding st.clusters 0 (none, 0) with ⟨best, bsim⟩
  cases best with
  | none =>
    have hconf : calculateClusterConfidence [s] s.embedding =
        .ok (confidenceValue [s] s.embedding) := by
      refine calculateClusterConfidence_ok ?_
      intro x hx
      simp only [List.mem_singleton] at hx
      subst hx
      rfl
    rw [hconf, m_ok_bind]
    rfl
  | some jb =>
    rcases jb with ⟨j, bc⟩
    obtain ⟨hj, hbc, -, -, -, -⟩ := bestPure_some (show
      (bestPure threshold s.embedding st.clusters 0 (none, 0)).1 = some (j, bc) by rw [hbp])
    have hbcmem : bc ∈ st.clusters := by rw [hbc]; exact List.get_mem _ _ _
    have hbclen : bc.centroid.length = s.embedding.length := hclusters bc hbcmem
    have hconf : ∀ (cent : List ℝ), cent.length = s.embedding.length →
        calculateClusterConfidence
          (pool.filter (fun x => (bc.sentenceIds ++ [s.id]).contains x.id)) cent =
        .ok (confidenceValue
          (pool.filter (fun x => (bc.sentenceIds ++ [s.id]).contains x.id)) cent) := by
      intro cent hcent
      refine calculateClusterConfidence_ok ?_
      intro x hx
      have hxp := (List.mem_filter.mp hx).1
      rw [hcent]
      exact hpool x hxp
    have hcent : (updateCentroidValue bc.centroid s.embedding
        (bc.sentenceIds ++ [s.id]).length).length = s.embedding.length := by
      rw [updateCentroidValue_length, hbclen, min_self]
    have hupd := @updateCentroid_ok bc.centroid s.embedding
      ((bc.sentenceIds ++ [s.id]).length) hbclen
    have hconf2 := hconf _ hcent
    simp only [hupd, hconf2, m_ok_bind]
    rfl

theorem assignPure_centroid_length {idGen : ℕ → String} {pool : List SentenceWithEmbedding}
    {threshold : ℝ} {st : PassState} {nextId : ℕ} {s : SentenceWithEmbedding} {D : ℕ}
    (hclusters : ∀ c ∈ st.clusters, c.centroid.length = D)
    (hs : s.embedding.length = D) :
    ∀ c ∈ (assignPure idGen pool threshold st nextId s).1.clusters, c.centroid.length = D := by
  unfold assignPure
  rcases hbp : (bestPure threshold s.embedding st.clusters 0 (none, 0)).1 with - | ⟨j, bc⟩
  · intro c hc
    simp only at hc
    rcases List.mem_append.mp hc with hold | hnew
    · exact hclusters c hold
    · simp only [List.mem_singleton] at hnew
      subst hnew
      exact hs
  · obtain ⟨hj, hbc, -, -, -, -⟩ := bestPure_some hbp
    have hbclen : bc.centroid.length = D := hclusters bc (by rw [hbc]; exact List.get_mem _ _ _)
    have hulen : (updateCentroidValue bc.centroid s.embedding
        (bc.sentenceIds ++ [s.id]).length).length = D := by
      rw [updateCentroidValue_length, hbclen, hs, min_self]
    intro c hc
    simp only at hc
    split at hc
    · rcases List.mem_or_eq_of_mem_set hc with hc1 | hc1
      · rcases List.mem_or_eq_of_mem_set hc1 with hc2 | hc2
        · exact hclusters c hc2
        · subst hc2; exact hulen
      · subst hc1; exact hulen
    · rcases List.mem_or_eq_of_mem_set hc with hc1 | hc1
      · exact hclusters c hc1
      · subst hc1; exact hulen

theorem passLoop_ok {idGen : ℕ → String} {pool : List SentenceWithEmbedding}
    {threshold : ℝ} {D : ℕ}
    (hpool : ∀ p ∈ pool, p.embedding.length = D) :
    ∀ (rest : List SentenceWithEmbedding) (st : PassState) (nextId : ℕ),
      (∀ s ∈ rest, s.embedding.length = D) →
      (∀ c ∈ st.clusters, c.centroid.length = D) →
      passLoop idGen pool threshold st nextId rest =
        .ok (loopPure idGen pool threshold st nextId rest) ∧
      (∀ c ∈ (loopPure idGen pool threshold st nextId rest).1.clusters,
        c.centroid.length = D) := by
  intro rest
  induction rest with
  | nil =>
    intro st nextId hrest hst
    exact ⟨rfl, hst⟩
  | cons s rest ih =>
    intro st nextId hrest hst
    have hs : s.embedding.length = D := hrest s (by simp)
    by_cases hmem : s.id ∈ st.processed
    · rw [passLoop, if_pos hmem, loopPure, if_pos hmem]
      exact ih st nextId (fun x hx => hrest x (List.mem_cons_of_mem _ hx)) hst
    · have hpool' : ∀ p ∈ pool, p.embedding.length = s.embedding.length := by
        intro p hp; rw [hs]; exact hpool p hp
      have hst' : ∀ c ∈ st.clusters, c.centroid.length = s.embedding.length := by
        intro c hc; rw [hs]; exact hst c hc
      have hlen' := @assignPure_centroid_length idGen pool threshold st nextId s _ hst hs
      rw [passLoop, if_neg hmem, loopPure, if_neg hmem,
        assignSentence_ok hpool' hst', m_ok_bind]
      rcases hap : assignPure idGen pool threshold st nextId s with ⟨st1, n1⟩
      rw [hap] at hlen'
      show (if maxClusters ≤ st1.clusters.length then Except.ok (st1, n1)
          else passLoop idGen pool threshold st1 n1 rest) =
        Except.ok (if maxClusters ≤ st1.clusters.length then (st1, n1)
          else loopPure idGen pool threshold st1 n1 rest) ∧
        (∀ c ∈ (if maxClusters ≤ st1.clusters.length then (st1, n1)
          else loopPure idGen pool threshold st1 n1 rest).1.clusters, c.centroid.length = D)
      by_cases hbreak : maxClusters ≤ st1.clusters.length
      · rw [if_pos hbreak, if_pos hbreak]
        exact ⟨rfl, hlen'⟩
      · rw [if_neg hbreak, if_neg hbreak]
        exact ih _ _ (fun x hx => hrest x (List.mem_cons_of_mem _ hx)) hlen'

end ClusteringService

namespace ClusteringService

theorem m_pure_eq {α : Type} {a : α} : (pure a : M α) = .ok a := rfl

theorem validateSentence_ok_iff {index : ℕ} {s : SentenceWithEmbedding} :
    validateSentence index s = .ok () ↔
      validNumericId s.id = true ∧ ¬(s.text = "" ∨ s.text.data.all Char.isWhitespace) ∧
        s.embedding.isEmpty = false := by
  unfold validateSentence
  constructor
  · intro h
    by_cases h1 : validNumericId s.id
    · rw [if_neg (by simp [h1])] at h
      by_cases h2 : s.text = "" ∨ s.text.data.all Char.isWhitespace
      · rw [if_pos h2] at h; exact absurd h (by simp)
      · rw [if_neg h2] at h
        by_cases h3 : s.embedding.isEmpty
        · rw [if_pos h3] at h; exact absurd h (by simp)
        · exact ⟨h1, h2, by simpa using h3⟩
    · rw [if_pos (by simp [h1])] at h
      exact absurd h (by simp)
  · intro ⟨h1, h2, h3⟩
    rw [if_neg (by simp [h1]), if_neg h2, if_neg (by simp [h3])]

theorem validateEach_facts :
    ∀ {sentences : List SentenceWithEmbedding} {i : ℕ},
      validateEach i sentences = .ok () →
      ∀ s ∈ sentences, validNumericId s.id = true ∧
        ¬(s.text = "" ∨ s.text.data.all Char.isWhitespace) ∧
        s.embedding.isEmpty = false := by
  intro sentences
  induction sentences with
  | nil => intro i _ s hs; exact absurd hs (by simp)
  | cons a rest ih =>
    intro i h s hs
    rw [validateEach] at h
    rcases hv : validateSentence i a with e | u
    · rw [hv] at h; exact absurd h (by simp [m_error_bind])
    · rw [hv] at h
      rcases u
      rw [m_ok_bind] at h
      rcases List.mem_cons.mp hs with hs | hs
      · subst hs
        exact validateSentence_ok_iff.mp hv
      · exact ih h s hs

theorem validateSentences_ok_inv {sentences : List SentenceWithEmbedding}
    (h : validateSentences sentences = .ok ()) :
    sentences.isEmpty = false ∧ sentences.length ≤ 10000 ∧
      validateEach 0 sentences = .ok () ∧
      ∀ s0 ∈ sentences.head?, ∀ s ∈ sentences, s.embedding.length = s0.embedding.length := by
  unfold validateSentences at h
  by_cases h1 : sentences.isEmpty
  · rw [if_pos h1] at h
    simp [m_throw_eq, m_error_bind] at h
  · rw [if_neg h1] at h
    simp only [m_pure_eq, m_ok_bind] at h
    by_cases h2 : 10000 < sentences.length
    · rw [if_pos h2] at h
      simp [m_throw_eq, m_error_bind] at h
    · rw [if_neg h2] at h
      rcases hv : validateEach 0 sentences with e | u
      · rw [hv] at h
        simp [m_error_bind] at h
      · rw [hv] at h
        rcases u
        rw [m_ok_bind] at h
        refine ⟨by simpa using h1, by omega, rfl, ?_⟩
        cases sentences with
        | nil => intro s0 hs0; exact absurd hs0 (by simp)
        | cons a rest =>
          intro s0 hs0 s hs
          simp only [List.head?_cons, Option.mem_def, Option.some.injEq] at hs0
          subst hs0
          by_cases h3 : (a :: rest).any (fun s => s.embedding.length != a.embedding.length)
          · simp only [h3, if_true, m_throw_eq] at h
            exact Except.noConfusion h
          · have hnot : ¬(s.embedding.length != a.embedding.length) = true := by
              intro hbad
              exact h3 (List.any_eq_true.mpr ⟨s, hs, hbad⟩)
            simpa using hnot

theorem validateSentences_dims {sentences : List SentenceWithEmbedding}
    (h : validateSentences sentences = .ok ()) :
    ∃ D : ℕ, 0 < D ∧ ∀ s ∈ sentences, s.embedding.length = D := by
  obtain ⟨h1, -, hv, hdim⟩ := validateSentences_ok_inv h
  cases sentences with
  | nil => simp at h1
  | cons a rest =>
    refine ⟨a.embedding.length, ?_, ?_⟩
    · have := (validateEach_facts hv a (by simp)).2.2
      have hne : a.embedding ≠ [] := by simpa [List.isEmpty_iff] using this
      have := List.length_pos.mpr hne
      omega
    · exact hdim a (by simp)

theorem validateThreshold_ok_iff {threshold : ℝ} :
    validateThreshold threshold = .ok () ↔ 0 ≤ threshold ∧ threshold ≤ 1 := by
  unfold validateThreshold
  constructor
  · intro h
    by_cases hc : threshold < 0 ∨ 1 < threshold
    · rw [if_pos hc] at h; exact absurd h (by simp)
    · push_neg at hc; exact hc
  · intro ⟨h0, h1⟩
    rw [if_neg (by push_neg; exact ⟨h0, h1⟩)]

/-- Forward evaluation of `clusterSentences`: once both validations pass, the
whole pass runs without any error and produces the finalisation of the pure
loop. -/
theorem clusterSentences_run {idGen : ℕ → String} {sentences : List SentenceWithEmbedding}
    {threshold : ℝ}
    (hv : validateSentences sentences = .ok ())
    (ht : validateThreshold threshold = .ok ()) :
    clusterSentences idGen sentences threshold =
      .ok (finalizeResult
        (loopPure idGen sentences threshold { clusters := [], processed := [] } 0 sentences).1) := by
  obtain ⟨D, -, hdim⟩ := validateSentences_dims hv
  unfold clusterSentences
  rw [hv, m_ok_bind, ht, m_ok_bind]
  have hloop := (@passLoop_ok idGen sentences threshold D hdim sentences
    { clusters := [], processed := [] } 0 hdim (by intro c hc; exact absurd hc (by simp))).1
  rw [hloop, m_ok_bind]
  rcases hlp : loopPure idGen sentences threshold { clusters := [], processed := [] } 0 sentences
    with ⟨st, n⟩
  rfl

/-- Inversion of a successful `clusterSentences` call. -/
theorem clusterSentences_ok_inv {idGen : ℕ → String} {sentences : List SentenceWithEmbedding}
    {threshold : ℝ} {r : ClusterResult}
    (h : clusterSentences idGen sentences threshold = .ok r) :
    validateSentences sentences = .ok () ∧ validateThreshold threshold = .ok () ∧
      r = finalizeResult
        (loopPure idGen sentences threshold { clusters := [], processed := [] } 0 sentences).1 := by
  have hv : validateSentences sentences = .ok () := by
    unfold clusterSentences at h
    rcases hv : validateSentences sentences with e | u
    · rw [hv] at h; exact absurd h (by simp [m_error_bind])
    · rcases u; rfl
  have ht : validateThreshold threshold = .ok () := by
    unfold clusterSentences at h
    rw [hv, m_ok_bind] at h
    rcases ht : validateThreshold threshold with e | u
    · rw [ht] at h; exact absurd h (by simp [m_error_bind])
    · rcases u; rfl
  have := @clusterSentences_run idGen sentences threshold hv ht
  rw [this] at h
  refine ⟨hv, ht, ?_⟩
  have := Except.ok.inj h
  exact this.symm

end ClusteringService

namespace ClusteringService

/-! ## List and vector helper lemmas -/

theorem zipWith_congr_fun {α β γ : Type} {f g : α → β → γ} (h : ∀ a b, f a b = g a b) :
    ∀ (l1 : List α) (l2 : List β), List.zipWith f l1 l2 = List.zipWith g l1 l2 := by
  intro l1
  induction l1 with
  | nil => intro l2; rfl
  | cons a l ih =>
    intro l2
    cases l2 with
    | nil => rfl
    | cons b l2 => simp [h a b, ih l2]

theorem zipWith_add_replicate_zero {v : List ℝ} {D : ℕ} (h : v.length = D) :
    List.zipWith (· + ·) (List.replicate D 0) v = v := by
  induction v generalizing D with
  | nil => subst h; rfl
  | cons a l ih =>
    subst h
    simp only [List.length_cons, List.replicate, List.zipWith_cons_cons, zero_add]
    rw [ih rfl]

theorem vecSum_append_singleton (D : ℕ) (vs : List (List ℝ)) (v : List ℝ) :
    vecSum D (vs ++ [v]) = List.zipWith (· + ·) (vecSum D vs) v := by
  unfold vecSum
  rw [List.foldl_append]
  rfl

theorem meanVec_singleton {D : ℕ} {v : List ℝ} (h : v.length = D) :
    meanVec D [v] = v := by
  unfold meanVec vecSum
  simp only [List.foldl_cons, List.foldl_nil, List.length_singleton]
  rw [zipWith_add_replicate_zero h]
  simp [div_one]

theorem updateCentroidValue_mean {D : ℕ} {vs : List (List ℝ)} {v : List ℝ}
    (hne : vs ≠ []) :
    updateCentroidValue (meanVec D vs) v (vs.length + 1) = meanVec D (vs ++ [v]) := by
  have hk : (vs.length : ℝ) ≠ 0 := by
    have := List.length_pos.mpr hne
    positivity
  unfold updateCentroidValue meanVec
  rw [vecSum_append_singleton]
  rw [List.zipWith_map_left, List.map_zipWith]
  refine zipWith_congr_fun ?_ _ _
  intro a b
  rw [List.length_append, List.length_singleton]
  push_cast
  field_simp

theorem embeddingOf_length {pool : List SentenceWithEmbedding} {D : ℕ} {i : SId}
    (hpool : ∀ p ∈ pool, p.embedding.length = D) (h : ∃ p ∈ pool, p.id = i) :
    (embeddingOf pool i).length = D := by
  obtain ⟨p, hp, hpi⟩ := h
  unfold embeddingOf
  rcases hf : pool.find? (fun s => s.id == i) with _ | q
  · have := List.find?_eq_none.mp hf p hp
    simp [hpi] at this
  · rw [hf]
    exact hpool q (List.mem_of_find?_eq_some hf)

theorem embeddingOf_append_head {done : List SentenceWithEmbedding}
    {s : SentenceWithEmbedding} {rest : List SentenceWithEmbedding}
    (h : ∀ e ∈ done, e.id ≠ s.id) :
    embeddingOf (done ++ s :: rest) s.id = s.embedding := by
  unfold embeddingOf
  induction done with
  | nil => simp [List.find?_cons_of_pos]
  | cons e done ih =>
    rw [List.cons_append, List.find?_cons_of_neg, ih (fun x hx => h x (by simp [hx]))]
    simp [h e (by simp)]

theorem map_id_set_self {l : List String} {j : ℕ} (h : j < l.length) :
    l.set j (l.get ⟨j, h⟩) = l := by
  induction l generalizing j with
  | nil => simp at h
  | cons a l ih =>
    cases j with
    | zero => rfl
    | succ j => simpa using ih (by simpa using h)

theorem findIdx_of_nodup_ids {l : List Cluster} {j : ℕ} (h : j < l.length)
    (hnd : (l.map (fun c => c.id)).Nodup) :
    l.findIdx (fun c => c.id == (l.get ⟨j, h⟩).id) = j := by
  induction l generalizing j with
  | nil => simp at h
  | cons a l ih =>
    cases j with
    | zero => simp [List.findIdx_cons]
    | succ j =>
      have hj : j < l.length := by simpa using h
      have hne : a.id ≠ (l.get ⟨j, hj⟩).id := by
        intro he
        have : a.id ∈ l.map (fun c => c.id) := by
          rw [he]
          exact List.mem_map_of_mem _ (List.get_mem _ _ _)
        simp only [List.map_cons, List.nodup_cons] at hnd
        exact hnd.1 this
      have hstep : (l.get ⟨j, hj⟩) = ((a :: l).get ⟨j + 1, h⟩) := rfl
      rw [List.findIdx_cons]
      rw [← hstep]
      have : (a.id == (l.get ⟨j, hj⟩).id) = false := by
        simpa using hne
      rw [this]
      simp only [cond_false]
      rw [ih hj (by simp only [List.map_cons, List.nodup_cons] at hnd; exact hnd.2)]

theorem flatMap_take_get_drop {l : List Cluster} {j : ℕ} (h : j < l.length)
    (f : Cluster → List SId) :
    l.flatMap f =
      (l.take j).flatMap f ++ f (l.get ⟨j, h⟩) ++ (l.drop (j + 1)).flatMap f := by
  conv_lhs => rw [← List.take_append_drop j l]
  rw [List.flatMap_append]
  have : l.drop j = l.get ⟨j, h⟩ :: l.drop (j + 1) := (List.getElem_cons_drop l j h).symm
  rw [this, List.flatMap_cons, List.append_assoc]

theorem flatMap_set {l : List Cluster} {j : ℕ} (h : j < l.length) (c' : Cluster)
    (f : Cluster → List SId) :
    (l.set j c').flatMap f =
      (l.take j).flatMap f ++ f c' ++ (l.drop (j + 1)).flatMap f := by
  rw [List.set_eq_take_append_cons_drop, if_pos h, List.flatMap_append, List.flatMap_cons,
    List.append_assoc]

theorem perm_flatMap {l1 l2 : List Cluster} (f : Cluster → List SId)
    (h : List.Perm l1 l2) : List.Perm (l1.flatMap f) (l2.flatMap f) := by
  induction h with
  | nil => exact List.Perm.refl _
  | cons x _ ih => simpa using ih.append_left (f x)
  | swap x y l =>
    simp only [List.flatMap_cons, ← List.append_assoc]
    exact (List.perm_append_comm).append_right _
  | trans _ _ ih1 ih2 => exact ih1.trans ih2

theorem insertClusterBySize_perm (c : Cluster) (l : List Cluster) :
    List.Perm (insertClusterBySize c l) (c :: l) := by
  induction l with
  | nil => exact List.Perm.refl _
  | cons d ds ih =>
    rw [insertClusterBySize]
    by_cases hc : c.sentenceIds.length < d.sentenceIds.length
    · rw [if_pos hc]
      exact (ih.cons d).trans (List.Perm.swap c d ds)
    · rw [if_neg hc]

theorem sortClustersBySizeDesc_perm (l : List Cluster) :
    List.Perm (sortClustersBySizeDesc l) l := by
  induction l with
  | nil => exact List.Perm.refl _
  | cons c cs ih =>
    rw [sortClustersBySizeDesc]
    exact (insertClusterBySize_perm c (sortClustersBySizeDesc cs)).trans (ih.cons c)

end ClusteringService

namespace ClusteringService

theorem set_get_self {α : Type} (l : List α) (j : ℕ) (h : j < l.length) :
    l.set j (l.get ⟨j, h⟩) = l := by
  induction l generalizing j with
  | nil => simp at h
  | cons a l ih =>
    cases j with
    | zero => rfl
    | succ j => simpa using ih j (by simpa using h)

theorem findIdx_set_self_id {l : List Cluster} {j : ℕ} (h : j < l.length) (c' : Cluster)
    (hnd : ((l.set j c').map (fun c => c.id)).Nodup) :
    (l.set j c').findIdx (fun c => c.id == c'.id) = j := by
  have h' : j < (l.set j c').length := by simpa using h
  have hget : (l.set j c').get ⟨j, h'⟩ = c' := by
    simp [List.get_eq_getElem, List.getElem_set]
  have := findIdx_of_nodup_ids h' hnd
  rwa [hget] at this

/-- The loop invariant of the assignment pass: cluster ids follow the
generator in creation order, centroids have the ambient dimension, every
cluster is nonempty, the cluster members are (up to permutation) exactly the
processed ids, processed ids are distinct and resolvable in the input, and
every centroid is the arithmetic mean of its members' embeddings. -/
structure PassInv (idGen : ℕ → String) (pool : List SentenceWithEmbedding) (D : ℕ)
    (st : PassState) (nextId : ℕ) : Prop where
  ids_pattern : st.clusters.map (fun c => c.id) = (List.range nextId).map idGen
  centroid_len : ∀ c ∈ st.clusters, c.centroid.length = D
  nonempty_members : ∀ c ∈ st.clusters, c.sentenceIds ≠ []
  members_perm : List.Perm (st.clusters.flatMap (fun c => c.sentenceIds)) st.processed
  processed_nodup : st.processed.Nodup
  processed_resolvable : ∀ i ∈ st.processed, ∃ p ∈ pool, p.id = i
  centroid_mean : ∀ c ∈ st.clusters,
    c.centroid = meanVec D (c.sentenceIds.map (embeddingOf pool))

theorem passInv_ids_nodup {idGen pool D st nextId} (hg : Function.Injective idGen)
    (inv : PassInv idGen pool D st nextId) :
    (st.clusters.map (fun c => c.id)).Nodup := by
  rw [inv.ids_pattern]
  exact (List.nodup_range nextId).map hg

/-- Closed form of the `some` branch of `assignPure`: with distinct cluster
ids, the `findIndex` rewrite targets exactly the best cluster's position. -/
theorem assignPure_some_eq {idGen : ℕ → String} {pool : List SentenceWithEmbedding}
    {threshold : ℝ} {st : PassState} {nextId : ℕ} {s : SentenceWithEmbedding}
    {j : ℕ} {bc : Cluster}
    (hbp : (bestPure threshold s.embedding st.clusters 0 (none, 0)).1 = some (j, bc))
    (hnd : (st.clusters.map (fun c => c.id)).Nodup) :
    assignPure idGen pool threshold st nextId s =
      ({ clusters := st.clusters.set j
          { id := bc.id
            sentenceIds := bc.sentenceIds ++ [s.id]
            centroid := updateCentroidValue bc.centroid s.embedding
              (bc.sentenceIds ++ [s.id]).length
            theme := generateTheme
              (pool.filter (fun x => (bc.sentenceIds ++ [s.id]).contains x.id))
            confidence := confidenceValue
              (pool.filter (fun x => (bc.sentenceIds ++ [s.id]).contains x.id))
              (updateCentroidValue bc.centroid s.embedding (bc.sentenceIds ++ [s.id]).length) }
         processed := s.id :: st.processed }, nextId) := by
  obtain ⟨hj, hbc, -, -, -, -⟩ := bestPure_some hbp
  have hmut : ∀ mutated : Cluster, mutated.id = bc.id →
      ((st.clusters.set j mutated).map (fun c => c.id)).Nodup := by
    intro mutated hid
    rw [List.map_set, hid, hbc]
    have : (st.clusters.get ⟨j, hj⟩).id =
        (st.clusters.map (fun c => c.id)).get ⟨j, by simpa using hj⟩ := by
      simp [List.get_eq_getElem]
    rw [this, set_get_self]
    exact hnd
  unfold assignPure
  rw [hbp]
  have hidx := findIdx_set_self_id (l := st.clusters) (j := j) hj
    { id := bc.id
      sentenceIds := bc.sentenceIds ++ [s.id]
      centroid := updateCentroidValue bc.centroid s.embedding (bc.sentenceIds ++ [s.id]).length
      theme := bc.theme
      confidence := bc.confidence } (hmut _ rfl)
  simp only [hidx, List.length_set, if_pos hj, List.set_set]

theorem assignPure_none_eq {idGen : ℕ → String} {pool : List SentenceWithEmbedding}
    {threshold : ℝ} {st : PassState} {nextId : ℕ} {s : SentenceWithEmbedding}
    (hbp : (bestPure threshold s.embedding st.clusters 0 (none, 0)).1 = none) :
    assignPure idGen pool threshold st nextId s =
      ({ clusters := st.clusters ++
          [{ id := idGen nextId
             sentenceIds := [s.id]
             centroid := s.embedding
             theme := generateTheme [s]
             confidence := confidenceValue [s] s.embedding }]
         processed := s.id :: st.processed }, nextId + 1) := by
  unfold assignPure
  rw [hbp]

end ClusteringService

namespace ClusteringService

theorem map_id_set_of_get {st : List Cluster} {j : ℕ} (hj : j < st.length) (c' : Cluster)
    (hid : c'.id = (st.get ⟨j, hj⟩).id) :
    (st.set j c').map (fun c => c.id) = st.map (fun c => c.id) := by
  rw [List.map_set, hid]
  have : (st.get ⟨j, hj⟩).id =
      (st.map (fun c => c.id)).get ⟨j, by simpa using hj⟩ := by
    simp [List.get_eq_getElem]
  rw [this, set_get_self]

/-- `assignPure` preserves the pass invariant and prepends the processed id. -/
theorem assignPure_inv {idGen : ℕ → String} {pool : List SentenceWithEmbedding}
    {threshold : ℝ} {D : ℕ} {st : PassState} {nextId : ℕ} {s : SentenceWithEmbedding}
    (hg : Function.Injective idGen)
    (hpool : ∀ p ∈ pool, p.embedding.length = D)
    (inv : PassInv idGen pool D st nextId)
    (hspool : s ∈ pool)
    (hemb : embeddingOf pool s.id = s.embedding)
    (hnotmem : s.id ∉ st.processed) :
    PassInv idGen pool D (assignPure idGen pool threshold st nextId s).1
      (assignPure idGen pool threshold st nextId s).2 ∧
    (assignPure idGen pool threshold st nextId s).1.processed = s.id :: st.processed := by
  have hsD : s.embedding.length = D := hpool s hspool
  have hres : ∀ i ∈ s.id :: st.processed, ∃ p ∈ pool, p.id = i := by
    intro i hi
    rcases List.mem_cons.mp hi with hi | hi
    · exact ⟨s, hspool, hi.symm⟩
    · exact inv.processed_resolvable i hi
  have hnodup : (s.id :: st.processed).Nodup :=
    List.nodup_cons.mpr ⟨hnotmem, inv.processed_nodup⟩
  rcases hbp : (bestPure threshold s.embedding st.clusters 0 (none, 0)).1 with _ | ⟨j, bc⟩
  · rw [assignPure_none_eq hbp]
    refine ⟨⟨?_, ?_, ?_, ?_, hnodup, hres, ?_⟩, rfl⟩
    · simp only [List.map_append, inv.ids_pattern, List.range_succ, List.map_cons,
        List.map_nil]
    · intro c hc
      rcases List.mem_append.mp hc with hold | hnew
      · exact inv.centroid_len c hold
      · simp only [List.mem_singleton] at hnew
        subst hnew
        exact hsD
    · intro c hc
      rcases List.mem_append.mp hc with hold | hnew
      · exact inv.nonempty_members c hold
      · simp only [List.mem_singleton] at hnew
        subst hnew
        simp
    · simp only [List.flatMap_append, List.flatMap_cons, List.flatMap_nil, List.append_nil]
      exact (List.perm_append_singleton _ _).trans (inv.members_perm.cons s.id)
    · intro c hc
      rcases List.mem_append.mp hc with hold | hnew
      · exact inv.centroid_mean c hold
      · simp only [List.mem_singleton] at hnew
        subst hnew
        simp only [List.map_cons, List.map_nil, hemb]
        exact (meanVec_singleton hsD).symm
  · obtain ⟨hj, hbc, -, -, -, -⟩ := bestPure_some hbp
    have hbcmem : bc ∈ st.clusters := by rw [hbc]; exact List.get_mem _ _ _
    rw [assignPure_some_eq hbp (passInv_ids_nodup hg inv)]
    refine ⟨⟨?_, ?_, ?_, ?_, hnodup, hres, ?_⟩, rfl⟩
    · rw [map_id_set_of_get hj _ (by rw [← hbc]), inv.ids_pattern]
    · intro c hc
      rcases List.mem_or_eq_of_mem_set hc with hold | hnew
      · exact inv.centroid_len c hold
      · subst hnew
        show (updateCentroidValue bc.centroid s.embedding _).length = D
        rw [updateCentroidValue_length, inv.centroid_len bc hbcmem, hsD, min_self]
    · intro c hc
      rcases List.mem_or_eq_of_mem_set hc with hold | hnew
      · exact inv.nonempty_members c hold
      · subst hnew
        simp
    · rw [flatMap_set hj]
      have hperm0 := inv.members_perm
      rw [flatMap_take_get_drop hj (fun c => c.sentenceIds)] at hperm0
      rw [← hbc] at hperm0
      show List.Perm
        ((st.clusters.take j).flatMap (fun c => c.sentenceIds) ++ (bc.sentenceIds ++ [s.id]) ++
          (st.clusters.drop (j + 1)).flatMap (fun c => c.sentenceIds)) (s.id :: st.processed)
      have hshape :
          (st.clusters.take j).flatMap (fun c => c.sentenceIds) ++ (bc.sentenceIds ++ [s.id]) ++
            (st.clusters.drop (j + 1)).flatMap (fun c => c.sentenceIds) =
          ((st.clusters.take j).flatMap (fun c => c.sentenceIds) ++ bc.sentenceIds) ++
            s.id :: (st.clusters.drop (j + 1)).flatMap (fun c => c.sentenceIds) := by
        simp [List.append_assoc]
      rw [hshape]
      refine (List.perm_middle).trans ?_
      refine List.Perm.cons s.id ?_
      simpa [List.append_assoc] using hperm0
    · intro c hc
      rcases List.mem_or_eq_of_mem_set hc with hold | hnew
      · exact inv.centroid_mean c hold
      · subst hnew
        show updateCentroidValue bc.centroid s.embedding (bc.sentenceIds ++ [s.id]).length =
          meanVec D ((bc.sentenceIds ++ [s.id]).map (embeddingOf pool))
        have hne : bc.sentenceIds.map (embeddingOf pool) ≠ [] := by
          have := inv.nonempty_members bc hbcmem
          simpa using this
        have hcount : (bc.sentenceIds ++ [s.id]).length =
            (bc.sentenceIds.map (embeddingOf pool)).length + 1 := by
          simp
        rw [hcount, inv.centroid_mean bc hbcmem, updateCentroidValue_mean hne]
        simp [hemb]

end ClusteringService

namespace ClusteringService

/-- Main loop invariant: the pure loop preserves `PassInv`, and the ids it has
processed at the end are exactly the previously processed ids together with
the ids of some prefix of the remaining items; that prefix is everything
whenever the final number of open clusters is below the cap. -/
theorem loopPure_inv {idGen : ℕ → String} {pool : List SentenceWithEmbedding}
    {threshold : ℝ} {D : ℕ}
    (hg : Function.Injective idGen)
    (hpool : ∀ p ∈ pool, p.embedding.length = D) :
    ∀ (rest done : List SentenceWithEmbedding) (st : PassState) (nextId : ℕ),
      pool = done ++ rest →
      (∀ e ∈ done, e.id ∈ st.processed) →
      PassInv idGen pool D st nextId →
      PassInv idGen pool D (loopPure idGen pool threshold st nextId rest).1
        (loopPure idGen pool threshold st nextId rest).2 ∧
      ∃ k ≤ rest.length,
        (∀ x, x ∈ (loopPure idGen pool threshold st nextId rest).1.processed ↔
          x ∈ st.processed ∨ x ∈ (rest.take k).map (fun s => s.id)) ∧
        ((loopPure idGen pool threshold st nextId rest).1.clusters.length < maxClusters →
          k = rest.length) := by
  intro rest
  induction rest with
  | nil =>
    intro done st nextId hsplit hdone inv
    exact ⟨inv, 0, by simp, by intro x; simp [loopPure], by simp⟩
  | cons s rest ih =>
    intro done st nextId hsplit hdone inv
    have hsplit' : pool = (done ++ [s]) ++ rest := by simpa [List.append_assoc] using hsplit
    have hspool : s ∈ pool := by rw [hsplit]; simp
    by_cases hmem : s.id ∈ st.processed
    · rw [loopPure, if_pos hmem]
      obtain ⟨inv', k, hk, hiff, hcap⟩ := ih (done ++ [s]) st nextId hsplit'
        (by
          intro e he
          rcases List.mem_append.mp he with he | he
          · exact hdone e he
          · simp only [List.mem_singleton] at he
            subst he
            exact hmem) inv
      refine ⟨inv', k + 1, by simpa using Nat.succ_le_succ hk, ?_, ?_⟩
      · intro x
        rw [hiff x]
        constructor
        · intro h
          rcases h with h | h
          · exact Or.inl h
          · exact Or.inr (by simpa using Or.inr h)
        · intro h
          rcases h with h | h
          · exact Or.inl h
          · simp only [List.take_succ_cons, List.map_cons, List.mem_cons] at h
            rcases h with h | h
            · subst h
              exact Or.inl hmem
            · exact Or.inr h
      · intro hlt
        have := hcap hlt
        simpa using congrArg Nat.succ this
    · rw [loopPure, if_neg hmem]
      have hfresh : ∀ e ∈ done, e.id ≠ s.id := by
        intro e he hne
        exact hmem (hne ▸ hdone e he)
      have hemb : embeddingOf pool s.id = s.embedding := by
        rw [hsplit]
        exact embeddingOf_append_head hfresh
      obtain ⟨inv1, hproc1⟩ := @assignPure_inv idGen pool threshold D st nextId s
        hg hpool inv hspool hemb hmem
      rcases hap : assignPure idGen pool threshold st nextId s with ⟨st1, n1⟩
      rw [hap] at inv1 hproc1
      simp only at inv1 hproc1
      by_cases hbreak : maxClusters ≤ st1.clusters.length
      · rw [if_pos hbreak]
        refine ⟨inv1, 1, by simp, ?_, ?_⟩
        · intro x
          simp only [hproc1, List.take_succ_cons, List.take_zero, List.map_cons, List.map_nil,
            List.mem_cons, List.mem_singleton]
          constructor
          · intro h
            rcases h with h | h
            · exact Or.inr (Or.inl h)
            · exact Or.inl h
          · intro h
            rcases h with h | h
            · exact Or.inr h
            · rcases h with h | h
              · exact Or.inl h
              · simp at h
        · intro hlt
          exact absurd hlt (Nat.not_lt.mpr hbreak)
      · rw [if_neg hbreak]
        obtain ⟨inv', k, hk, hiff, hcap⟩ := ih (done ++ [s]) st1 n1 hsplit'
          (by
            intro e he
            rcases List.mem_append.mp he with he | he
            · rw [hproc1]
              exact List.mem_cons_of_mem _ (hdone e he)
            · simp only [List.mem_singleton] at he
              subst he
              rw [hproc1]
              exact List.mem_cons_self _ _) inv1
        refine ⟨inv', k + 1, by simpa using Nat.succ_le_succ hk, ?_, ?_⟩
        · intro x
          rw [hiff x, hproc1]
          simp only [List.take_succ_cons, List.map_cons, List.mem_cons]
          constructor
          · intro h
            rcases h with h | h
            · rcases h with h | h
              · exact Or.inr (Or.inl h)
              · exact Or.inl h
            · exact Or.inr (Or.inr h)
          · intro h
            rcases h with h | h
            · exact Or.inl (Or.inr h)
            · rcases h with h | h
              · exact Or.inl (Or.inl h)
              · exact Or.inr h
        · intro hlt
          simpa using congrArg Nat.succ (hcap hlt)

end ClusteringService

namespace ClusteringService

theorem finalize_ids_perm (st : PassState) :
    List.Perm (assignedIds (finalizeResult st) ++ (finalizeResult st).outliers)
      (st.clusters.flatMap (fun c => c.sentenceIds)) := by
  unfold finalizeResult assignedIds
  simp only
  refine ((perm_flatMap _ (sortClustersBySizeDesc_perm _)).append_right _).trans ?_
  rw [← List.flatMap_append]
  exact perm_flatMap _ (List.filter_append_perm _ _)

theorem mem_finalize_clusters {st : PassState} {c : Cluster}
    (h : c ∈ (finalizeResult st).clusters) :
    c ∈ st.clusters ∧ minClusterSize ≤ c.sentenceIds.length := by
  unfold finalizeResult at h
  simp only at h
  have hmem := (sortClustersBySizeDesc_perm _).mem_iff.mp h
  have := List.mem_filter.mp hmem
  exact ⟨this.1, by simpa using this.2⟩

theorem mem_finalize_outliers {st : PassState} {i : SId}
    (h : i ∈ (finalizeResult st).outliers)
    (hne : ∀ c ∈ st.clusters, c.sentenceIds ≠ []) :
    ∃ c ∈ st.clusters, c.sentenceIds = [i] := by
  unfold finalizeResult at h
  simp only [List.mem_flatMap] at h
  obtain ⟨c, hc, hic⟩ := h
  have hcf := List.mem_filter.mp hc
  have hlen : c.sentenceIds.length < minClusterSize := by
    have := hcf.2
    simp only [Bool.not_eq_true', decide_eq_false_iff_not, not_le] at this
    exact this
  refine ⟨c, hcf.1, ?_⟩
  rcases hc1 : c.sentenceIds with _ | ⟨x, rest⟩
  · exact absurd hc1 (hne c hcf.1)
  · rcases rest with _ | ⟨y, rest2⟩
    · rw [hc1] at hic
      simp only [List.mem_singleton] at hic
      rw [hic]
    · rw [hc1] at hlen
      simp only [List.length_cons, minClusterSize] at hlen
      omega

theorem assignPure_nonempty {idGen : ℕ → String} {pool : List SentenceWithEmbedding}
    {threshold : ℝ} {st : PassState} {nextId : ℕ} {s : SentenceWithEmbedding}
    (h : ∀ c ∈ st.clusters, c.sentenceIds ≠ []) :
    ∀ c ∈ (assignPure idGen pool threshold st nextId s).1.clusters, c.sentenceIds ≠ [] := by
  unfold assignPure
  rcases hbp : (bestPure threshold s.embedding st.clusters 0 (none, 0)).1 with _ | ⟨j, bc⟩
  · intro c hc
    simp only at hc
    rcases List.mem_append.mp hc with hold | hnew
    · exact h c hold
    · simp only [List.mem_singleton] at hnew
      subst hnew
      simp
  · intro c hc
    simp only at hc
    split at hc
    · rcases List.mem_or_eq_of_mem_set hc with hc1 | hc1
      · rcases List.mem_or_eq_of_mem_set hc1 with hc2 | hc2
        · exact h c hc2
        · subst hc2; simp
      · subst hc1; simp
    · rcases List.mem_or_eq_of_mem_set hc with hc1 | hc1
      · exact h c hc1
      · subst hc1; simp

theorem loopPure_nonempty {idGen : ℕ → String} {pool : List SentenceWithEmbedding}
    {threshold : ℝ} :
    ∀ (rest : List SentenceWithEmbedding) (st : PassState) (nextId : ℕ),
      (∀ c ∈ st.clusters, c.sentenceIds ≠ []) →
      ∀ c ∈ (loopPure idGen pool threshold st nextId rest).1.clusters, c.sentenceIds ≠ [] := by
  intro rest
  induction rest with
  | nil => intro st nextId h; exact h
  | cons s rest ih =>
    intro st nextId h
    rw [loopPure]
    by_cases hmem : s.id ∈ st.processed
    · rw [if_pos hmem]
      exact ih st nextId h
    · rw [if_neg hmem]
      have h1 := @assignPure_nonempty idGen pool threshold st nextId s h
      rcases hap : assignPure idGen pool threshold st nextId s with ⟨st1, n1⟩
      rw [hap] at h1
      by_cases hbreak : maxClusters ≤ st1.clusters.length
      · rw [if_pos hbreak]
        exact h1
      · rw [if_neg hbreak]
        exact ih st1 n1 h1

/-- The trivial invariant at the start of the pass. -/
theorem passInv_initial (idGen : ℕ → String) (pool : List SentenceWithEmbedding) (D : ℕ) :
    PassInv idGen pool D { clusters := [], processed := [] } 0 := by
  refine ⟨by simp, by simp, by simp, by simp, by simp, by simp, by simp⟩

end ClusteringService

namespace ClusteringService

/-- C1 (amended): for a fresh (injective) id generator, a successful
`clusterSentences` call partitions the ids of a *prefix* of the input: the
concatenation of all clusters' `sentenceIds` with `outliers` has no
duplicates, and its members are exactly the ids of the first `k` input items
for some `k`; `k` covers the whole input whenever the final number of open
clusters stayed below the maximum of 50.  (The original claim — that the ids
of *all* input items always appear — fails when the cluster cap stops the
pass early; see the counterexample.) -/
theorem C1_partition_amended {idGen : ℕ → String} {sentences : List SentenceWithEmbedding}
    {threshold : ℝ} {r : ClusterResult}
    (hg : Function.Injective idGen)
    (h : clusterSentences idGen sentences threshold = .ok r) :
    (assignedIds r ++ r.outliers).Nodup ∧
    ∃ k ≤ sentences.length,
      (∀ x, x ∈ assignedIds r ++ r.outliers ↔ x ∈ (sentences.take k).map (fun s => s.id)) ∧
      ((loopPure idGen sentences threshold { clusters := [], processed := [] } 0
          sentences).1.clusters.length < maxClusters → k = sentences.length) := by
  obtain ⟨hv, ht, hr⟩ := clusterSentences_ok_inv h
  obtain ⟨D, -, hdim⟩ := validateSentences_dims hv
  obtain ⟨inv', k, hk, hiff, hcap⟩ := @loopPure_inv idGen sentences threshold D hg hdim
    sentences [] { clusters := [], processed := [] } 0 (by simp) (by simp)
    (passInv_initial idGen sentences D)
  have hperm : List.Perm (assignedIds r ++ r.outliers)
      ((loopPure idGen sentences threshold { clusters := [], processed := [] } 0
        sentences).1.clusters.flatMap (fun c => c.sentenceIds)) := by
    rw [hr]
    exact finalize_ids_perm _
  have hperm2 := hperm.trans inv'.members_perm
  refine ⟨hperm2.nodup_iff.mpr inv'.processed_nodup, k, hk, ?_, hcap⟩
  intro x
  rw [hperm2.mem_iff, hiff x]
  simp

/-- C3 (confirmed): for a fresh (injective) id generator, every cluster in a
successful `clusterSentences` result has as centroid — in exact arithmetic —
the arithmetic mean, recomputed from scratch, of the embeddings of all its
members, i.e. the repeated incremental `updateCentroid` (called with the
member count after each insertion) agrees with full recomputation. -/
theorem C3_centroid_mean {idGen : ℕ → String} {sentences : List SentenceWithEmbedding}
    {threshold : ℝ} {r : ClusterResult}
    (hg : Function.Injective idGen)
    (h : clusterSentences idGen sentences threshold = .ok r) :
    ∃ D : ℕ, (∀ s ∈ sentences, s.embedding.length = D) ∧
      ∀ c ∈ r.clusters, c.centroid = meanVec D (c.sentenceIds.map (embeddingOf sentences)) := by
  obtain ⟨hv, ht, hr⟩ := clusterSentences_ok_inv h
  obtain ⟨D, -, hdim⟩ := validateSentences_dims hv
  obtain ⟨inv', -⟩ := @loopPure_inv idGen sentences threshold D hg hdim
    sentences [] { clusters := [], processed := [] } 0 (by simp) (by simp)
    (passInv_initial idGen sentences D)
  refine ⟨D, hdim, ?_⟩
  intro c hc
  rw [hr] at hc
  exact inv'.centroid_mean c (mem_finalize_clusters hc).1

/-- C5 (confirmed): every cluster of a successful `clusterSentences` result
has at least `minClusterSize = 2` member ids, and every id in `outliers` was
the sole member of a size-1 cluster at the end of the assignment pass (the
cluster dissolved by the final partition step). -/
theorem C5_minsize_outliers {idGen : ℕ → String} {sentences : List SentenceWithEmbedding}
    {threshold : ℝ} {r : ClusterResult}
    (h : clusterSentences idGen sentences threshold = .ok r) :
    (∀ c ∈ r.clusters, minClusterSize ≤ c.sentenceIds.length) ∧
    ∀ i ∈ r.outliers, ∃ c ∈ (loopPure idGen sentences threshold
        { clusters := [], processed := [] } 0 sentences).1.clusters, c.sentenceIds = [i] := by
  obtain ⟨hv, ht, hr⟩ := clusterSentences_ok_inv h
  have hne := @loopPure_nonempty idGen sentences threshold
    sentences { clusters := [], processed := [] } 0 (by simp)
  constructor
  · intro c hc
    rw [hr] at hc
    exact (mem_finalize_clusters hc).2
  · intro i hi
    rw [hr] at hi
    exact mem_finalize_outliers hi hne

end ClusteringService

namespace ClusteringService

/-! ## Step-evaluation lemmas for concrete runs -/

theorem bestPure_nil {threshold : ℝ} {embedding : List ℝ} {i : ℕ}
    {acc : Option (ℕ × Cluster) × ℝ} :
    bestPure threshold embedding [] i acc = acc := rfl

theorem bestPure_cons_update {threshold : ℝ} {embedding : List ℝ} {c : Cluster}
    {rest : List Cluster} {i : ℕ} {acc : Option (ℕ × Cluster) × ℝ}
    (h : threshold < cosineSimilarityValue embedding c.centroid ∧
      acc.2 < cosineSimilarityValue embedding c.centroid) :
    bestPure threshold embedding (c :: rest) i acc =
      bestPure threshold embedding rest (i + 1)
        (some (i, c), cosineSimilarityValue embedding c.centroid) := by
  rw [bestPure, if_pos h]

theorem bestPure_cons_keep {threshold : ℝ} {embedding : List ℝ} {c : Cluster}
    {rest : List Cluster} {i : ℕ} {acc : Option (ℕ × Cluster) × ℝ}
    (h : ¬(threshold < cosineSimilarityValue embedding c.centroid ∧
      acc.2 < cosineSimilarityValue embedding c.centroid)) :
    bestPure threshold embedding (c :: rest) i acc =
      bestPure threshold embedding rest (i + 1) acc := by
  rw [bestPure, if_neg h]

theorem loopPure_nil {idGen : ℕ → String} {pool : List SentenceWithEmbedding}
    {threshold : ℝ} {st : PassState} {nextId : ℕ} :
    loopPure idGen pool threshold st nextId [] = (st, nextId) := rfl

theorem loopPure_cons_skip {idGen : ℕ → String} {pool : List SentenceWithEmbedding}
    {threshold : ℝ} {st : PassState} {nextId : ℕ} {s : SentenceWithEmbedding}
    {rest : List SentenceWithEmbedding} (h : s.id ∈ st.processed) :
    loopPure idGen pool threshold st nextId (s :: rest) =
      loopPure idGen pool threshold st nextId rest := by
  rw [loopPure, if_pos h]

theorem loopPure_cons_continue {idGen : ℕ → String} {pool : List SentenceWithEmbedding}
    {threshold : ℝ} {st : PassState} {nextId : ℕ} {s : SentenceWithEmbedding}
    {rest : List SentenceWithEmbedding} {st1 : PassState} {n1 : ℕ}
    (hskip : s.id ∉ st.processed)
    (hassign : assignPure idGen pool threshold st nextId s = (st1, n1))
    (hsmall : st1.clusters.length < maxClusters) :
    loopPure idGen pool threshold st nextId (s :: rest) =
      loopPure idGen pool threshold st1 n1 rest := by
  rw [loopPure, if_neg hskip, hassign]
  show (if maxClusters ≤ st1.clusters.length then ((st1, n1) : PassState × ℕ)
    else loopPure idGen pool threshold st1 n1 rest) = _
  rw [if_neg (Nat.not_le.mpr hsmall)]

theorem loopPure_cons_break {idGen : ℕ → String} {pool : List SentenceWithEmbedding}
    {threshold : ℝ} {st : PassState} {nextId : ℕ} {s : SentenceWithEmbedding}
    {rest : List SentenceWithEmbedding} {st1 : PassState} {n1 : ℕ}
    (hskip : s.id ∉ st.processed)
    (hassign : assignPure idGen pool threshold st nextId s = (st1, n1))
    (hbig : maxClusters ≤ st1.clusters.length) :
    loopPure idGen pool threshold st nextId (s :: rest) = (st1, n1) := by
  rw [loopPure, if_neg hskip, hassign]
  show (if maxClusters ≤ st1.clusters.length then ((st1, n1) : PassState × ℕ)
    else loopPure idGen pool threshold st1 n1 rest) = _
  rw [if_pos hbig]

/-! ## Numeric evaluation helpers -/

theorem cosineSimilarityValue_eq {a b : List ℝ} {dp A B : ℝ}
    (hdp : dotProduct a b = dp) (hA : sumSquares a = A) (hB : sumSquares b = B)
    (hA0 : 0 < A) (hB0 : 0 < B) :
    cosineSimilarityValue a b = dp / (Real.sqrt A * Real.sqrt B) := by
  unfold cosineSimilarityValue cosineDistanceValue
  rw [hdp, hA, hB]
  rw [if_neg (by
    push_neg
    constructor
    · exact ne_of_gt (Real.sqrt_pos.mpr hA0)
    · exact ne_of_gt (Real.sqrt_pos.mpr hB0))]
  ring

theorem div_sqrt_lt_of_sq {dp A B t : ℝ} (hA : 0 < A) (hB : 0 < B) (ht : 0 ≤ t)
    (hdp : 0 ≤ dp) (h : t ^ 2 * (A * B) < dp ^ 2) :
    t < dp / (Real.sqrt A * Real.sqrt B) := by
  have hs : Real.sqrt A * Real.sqrt B = Real.sqrt (A * B) := (Real.sqrt_mul hA.le B).symm
  have hspos : 0 < Real.sqrt (A * B) := Real.sqrt_pos.mpr (by positivity)
  have hsq : Real.sqrt (A * B) ^ 2 = A * B := Real.sq_sqrt (by positivity)
  rw [hs, lt_div_iff hspos]
  nlinarith [mul_nonneg ht hspos.le, sq_nonneg (dp - t * Real.sqrt (A * B)),
    sq_nonneg (dp + t * Real.sqrt (A * B))]

theorem div_sqrt_le_of_sq {dp A B t : ℝ} (hA : 0 < A) (hB : 0 < B) (ht : 0 ≤ t)
    (hdp : 0 ≤ dp) (h : dp ^ 2 ≤ t ^ 2 * (A * B)) :
    dp / (Real.sqrt A * Real.sqrt B) ≤ t := by
  have hs : Real.sqrt A * Real.sqrt B = Real.sqrt (A * B) := (Real.sqrt_mul hA.le B).symm
  have hspos : 0 < Real.sqrt (A * B) := Real.sqrt_pos.mpr (by positivity)
  have hsq : Real.sqrt (A * B) ^ 2 = A * B := Real.sq_sqrt (by positivity)
  rw [hs, div_le_iff hspos]
  nlinarith [mul_nonneg ht hspos.le]

theorem cosineSimilarityValue_one_one : cosineSimilarityValue [(1 : ℝ)] [1] = 1 := by
  have h := @cosineSimilarityValue_eq [(1 : ℝ)] [1] 1 1 1
    (by simp [dotProduct]) (by simp [sumSquares]) (by simp [sumSquares])
    (by norm_num) (by norm_num)
  rw [h, Real.sqrt_one]
  norm_num

end ClusteringService

namespace ClusteringService

/-! ## Concrete fixtures for witnesses and counterexamples -/

def wItem1 : SentenceWithEmbedding := { id := .inl 1, text := "hi", embedding := [1] }
def wItem2 : SentenceWithEmbedding := { id := .inl 2, text := "hi", embedding := [1] }

/-- The cluster created for `wItem1` by a run with generator `g`. -/
noncomputable def wCluster0 (g : ℕ → String) : Cluster :=
  { id := g 0
    sentenceIds := [.inl 1]
    centroid := [1]
    theme := generateTheme [wItem1]
    confidence := confidenceValue [wItem1] [1] }

/-- The cluster holding both items at the end of the small run. -/
noncomputable def wClusterFinal (g : ℕ → String) : Cluster :=
  { id := g 0
    sentenceIds := [.inl 1, .inl 2]
    centroid := [1]
    theme := generateTheme [wItem1, wItem2]
    confidence := confidenceValue [wItem1, wItem2] [1] }

theorem wValidate : validateSentences [wItem1, wItem2] = .ok () := by rfl

theorem wThresholdZero : validateThreshold 0 = .ok () :=
  validateThreshold_ok_iff.mpr ⟨le_refl 0, by norm_num⟩

theorem wStep1 (g : ℕ → String) :
    assignPure g [wItem1, wItem2] 0 { clusters := [], processed := [] } 0 wItem1 =
      ({ clusters := [wCluster0 g], processed := [.inl 1] }, 1) := by
  rw [@assignPure_none_eq g [wItem1, wItem2] 0
    { clusters := [], processed := [] } 0 wItem1 rfl]
  rfl

theorem wBest2 (g : ℕ → String) :
    bestPure 0 wItem2.embedding [wCluster0 g] 0 (none, 0) = (some (0, wCluster0 g), 1) := by
  have hsim : cosineSimilarityValue wItem2.embedding (wCluster0 g).centroid = 1 :=
    cosineSimilarityValue_one_one
  rw [bestPure_cons_update (by rw [hsim]; norm_num), bestPure_nil, hsim]

theorem wStep2 (g : ℕ → String) :
    assignPure g [wItem1, wItem2] 0 { clusters := [wCluster0 g], processed := [.inl 1] } 1
      wItem2 = ({ clusters := [wClusterFinal g], processed := [.inl 2, .inl 1] }, 1) := by
  rw [assignPure_some_eq (by rw [wBest2]) (by simp)]
  have hfilter : [wItem1, wItem2].filter
      (fun x => ((wCluster0 g).sentenceIds ++ [wItem2.id]).contains x.id) =
      [wItem1, wItem2] := by
    show [wItem1, wItem2].filter
      (fun x => (([.inl 1, .inl 2] : List SId).contains x.id)) = [wItem1, wItem2]
    rw [List.filter_cons_of_pos (by decide), List.filter_cons_of_pos (by decide),
      List.filter_nil]
  have hcent : updateCentroidValue (wCluster0 g).centroid wItem2.embedding
      ((wCluster0 g).sentenceIds ++ [wItem2.id]).length = [1] := by
    show updateCentroidValue [(1 : ℝ)] [1] 2 = [1]
    unfold updateCentroidValue
    norm_num
  rw [hfilter, hcent]
  rfl

theorem wLoop (g : ℕ → String) :
    loopPure g [wItem1, wItem2] 0 { clusters := [], processed := [] } 0 [wItem1, wItem2] =
      ({ clusters := [wClusterFinal g], processed := [.inl 2, .inl 1] }, 1) := by
  rw [loopPure_cons_continue (by simp) (wStep1 g) (by norm_num [maxClusters]),
    loopPure_cons_continue
      (by show (Sum.inl 2 : SId) ∉ ([.inl 1] : List SId); decide)
      (wStep2 g) (by norm_num [maxClusters]),
    loopPure_nil]

theorem wFinalize (g : ℕ → String) :
    finalizeResult { clusters := [wClusterFinal g], processed := [.inl 2, .inl 1] } =
      { clusters := [wClusterFinal g], outliers := [] } := by
  unfold finalizeResult
  rw [List.filter_cons_of_pos
      (by show decide (minClusterSize ≤ ([Sum.inl 1, Sum.inl 2] : List SId).length) = true
          decide),
    List.filter_nil,
    List.filter_cons_of_neg
      (by show ¬(!decide (minClusterSize ≤ ([Sum.inl 1, Sum.inl 2] : List SId).length)) = true
          decide),
    List.filter_nil]
  rfl

/-- Full evaluation of the two-item run: one kept cluster, no outliers. -/
theorem wRun (g : ℕ → String) :
    clusterSentences g [wItem1, wItem2] 0 =
      .ok { clusters := [wClusterFinal g], outliers := [] } := by
  rw [clusterSentences_run wValidate wThresholdZero]
  simp only [wLoop, wFinalize]

end ClusteringService

namespace ClusteringService

/-- C2 (counterexample): the cluster `id` fields come from the impure
`generateClusterId` (modelled by the generator argument), so two calls of
`clusterSentences` on the identical item list and threshold — fresh calls
having fresh `Date.now()`/`Math.random()` draws — do not yield identical
`ClusterResult` values: the ids differ. -/
theorem C2_counterexample :
    clusterSentences (fun _ => "a") [wItem1, wItem2] 0 ≠
      clusterSentences (fun _ => "b") [wItem1, wItem2] 0 := by
  rw [wRun (fun _ => "a"), wRun (fun _ => "b")]
  intro h
  have h1 := Except.ok.inj h
  have h2 := congrArg (fun r => r.clusters.map (fun c => c.id)) h1
  simp only [wClusterFinal, List.map_cons, List.map_nil] at h2
  have h3 : ("a" : String) = "b" := by simpa using h2
  exact absurd h3 (by decide)

/-- C6 (confirmed): `cosineDistance` fails with the dimension-mismatch
validation error exactly when the two vectors' lengths differ; for
equal-length vectors it returns exactly `1` whenever either vector has zero
norm (never dividing by zero), and `1 - dot/(‖a‖·‖b‖)` otherwise; and once
input validation (`validateSentences` and `validateThreshold`) passes,
`clusterSentences` always returns a result — it cannot fail on numeric
grounds. -/
theorem C6_cosine_safety :
    (∀ a b : List ℝ, a.length ≠ b.length ↔
      cosineDistance a b = .error (.validationError "Vectors must have the same dimension")) ∧
    (∀ a b : List ℝ, a.length = b.length →
      (Real.sqrt (sumSquares a) = 0 ∨ Real.sqrt (sumSquares b) = 0) →
      cosineDistance a b = .ok 1) ∧
    (∀ a b : List ℝ, a.length = b.length →
      ¬(Real.sqrt (sumSquares a) = 0 ∨ Real.sqrt (sumSquares b) = 0) →
      cosineDistance a b = .ok (1 - dotProduct a b /
        (Real.sqrt (sumSquares a) * Real.sqrt (sumSquares b)))) ∧
    (∀ (idGen : ℕ → String) (sentences : List SentenceWithEmbedding) (threshold : ℝ),
      validateSentences sentences = .ok () → validateThreshold threshold = .ok () →
      ∃ r, clusterSentences idGen sentences threshold = .ok r) := by
  refine ⟨?_, ?_, ?_, ?_⟩
  · intro a b
    constructor
    · exact cosineDistance_error
    · intro herr hlen
      rw [cosineDistance_ok hlen] at herr
      exact Except.noConfusion herr
  · intro a b hlen hz
    rw [cosineDistance_ok hlen]
    refine congrArg Except.ok ?_
    show (if Real.sqrt (sumSquares a) = 0 ∨ Real.sqrt (sumSquares b) = 0 then (1 : ℝ)
      else 1 - dotProduct a b / (Real.sqrt (sumSquares a) * Real.sqrt (sumSquares b))) = 1
    rw [if_pos hz]
  · intro a b hlen hz
    rw [cosineDistance_ok hlen]
    refine congrArg Except.ok ?_
    show (if Real.sqrt (sumSquares a) = 0 ∨ Real.sqrt (sumSquares b) = 0 then (1 : ℝ)
      else 1 - dotProduct a b / (Real.sqrt (sumSquares a) * Real.sqrt (sumSquares b))) = _
    rw [if_neg hz]
  · intro idGen sentences threshold hv ht
    exact ⟨_, clusterSentences_run hv ht⟩

/-- Witness for C6 at concrete inputs: a genuine dimension mismatch errors, a
zero vector yields distance exactly 1, and a concrete validated call of
`clusterSentences` returns a result. -/
theorem C6_witness :
    cosineDistance [(1 : ℝ)] [1, 0] =
      .error (.validationError "Vectors must have the same dimension") ∧
    cosineDistance [(0 : ℝ)] [5] = .ok 1 ∧
    ∃ r, clusterSentences (fun _ => "c") [wItem1, wItem2] 0 = .ok r := by
  refine ⟨(C6_cosine_safety.1 [(1 : ℝ)] [1, 0]).mp (by simp),
    C6_cosine_safety.2.1 [(0 : ℝ)] [5] (by simp) ?_,
    C6_cosine_safety.2.2.2 (fun _ => "c") [wItem1, wItem2] 0 wValidate wThresholdZero⟩
  left
  show Real.sqrt (sumSquares [(0 : ℝ)]) = 0
  have : sumSquares [(0 : ℝ)] = 0 := by simp [sumSquares]
  rw [this, Real.sqrt_zero]

end ClusteringService

namespace ClusteringService

/-! ## The cluster-cap run: 51 identical embeddings at threshold 1 -/

def capItem (n : ℕ) : SentenceWithEmbedding :=
  { id := .inl ((n : ℤ) + 1), text := "hi", embedding := [1] }

def capItems (n : ℕ) : List SentenceWithEmbedding := (List.range n).map capItem

def capItemsFrom (k m : ℕ) : List SentenceWithEmbedding :=
  (List.range m).map (fun i => capItem (k + i))

noncomputable def capCluster (g : ℕ → String) (i : ℕ) : Cluster :=
  { id := g i
    sentenceIds := [.inl ((i : ℤ) + 1)]
    centroid := [1]
    theme := generateTheme [capItem i]
    confidence := confidenceValue [capItem i] [1] }

noncomputable def capState (g : ℕ → String) (k : ℕ) : PassState :=
  { clusters := (List.range k).map (capCluster g)
    processed := (((List.range k).map (fun (i : ℕ) => (Sum.inl ((i : ℤ) + 1) : SId)))).reverse }

theorem bestPure_cap {clusters : List Cluster} (h : ∀ c ∈ clusters, c.centroid = [1]) :
    ∀ (i : ℕ) (acc : Option (ℕ × Cluster) × ℝ),
      bestPure 1 [(1 : ℝ)] clusters i acc = acc := by
  induction clusters with
  | nil => intro i acc; rfl
  | cons c rest ih =>
    intro i acc
    rw [bestPure_cons_keep, ih (fun x hx => h x (List.mem_cons_of_mem _ hx))]
    rw [h c (by simp), cosineSimilarityValue_one_one]
    intro hcond
    exact absurd hcond.1 (lt_irrefl 1)

theorem cap_assign (g : ℕ → String) (pool : List SentenceWithEmbedding) (k : ℕ) :
    assignPure g pool 1 (capState g k) k (capItem k) = (capState g (k + 1), k + 1) := by
  have hbp : (bestPure 1 (capItem k).embedding (capState g k).clusters 0 (none, 0)).1 = none := by
    rw [show (capItem k).embedding = [(1 : ℝ)] from rfl]
    rw [bestPure_cap (by
      intro c hc
      obtain ⟨i, -, hi⟩ := List.mem_map.mp hc
      rw [← hi]
      rfl)]
  rw [assignPure_none_eq hbp]
  unfold capState
  rw [List.range_succ, List.map_append, List.map_append]
  simp only [List.map_cons, List.map_nil, List.reverse_append, List.reverse_cons,
    List.reverse_nil, List.nil_append, List.cons_append]
  rfl

theorem cap_notmem (k : ℕ) : (capItem k).id ∉ (capState g k).processed := by
  unfold capState capItem
  simp only [List.mem_reverse, List.mem_map, List.mem_range]
  rintro ⟨i, hi, he⟩
  have : (i : ℤ) + 1 = (k : ℤ) + 1 := by
    simpa using he
  omega

theorem capState_length (g : ℕ → String) (k : ℕ) :
    (capState g k).clusters.length = k := by
  simp [capState]

theorem cap_loop (g : ℕ → String) :
    ∀ (m k : ℕ), k < maxClusters →
      loopPure g (capItems 51) 1 (capState g k) k (capItemsFrom k m) =
        (if k + m ≤ maxClusters then (capState g (k + m), k + m)
         else (capState g maxClusters, maxClusters)) := by
  intro m
  induction m with
  | zero =>
    intro k hk
    rw [if_pos (by omega)]
    simpa [capItemsFrom] using loopPure_nil
  | succ m ih =>
    intro k hk
    have hdecomp : capItemsFrom k (m + 1) = capItem k :: capItemsFrom (k + 1) m := by
      unfold capItemsFrom
      rw [List.range_succ_eq_map, List.map_cons, List.map_map]
      congr 1
      refine List.map_congr_left ?_
      intro i hi
      simp only [Function.comp_apply]
      congr 1
      omega
    rw [hdecomp]
    by_cases hfull : k + 1 = maxClusters
    · rw [loopPure_cons_break (cap_notmem k) (cap_assign g (capItems 51) k)
        (by rw [capState_length]; omega)]
      rw [hfull]
      by_cases hm : k + (m + 1) ≤ maxClusters
      · rw [if_pos hm]
        have : k + (m + 1) = maxClusters := by omega
        rw [this]
      · rw [if_neg hm]
    · rw [loopPure_cons_continue (cap_notmem k) (cap_assign g (capItems 51) k)
        (by rw [capState_length]; omega)]
      rw [ih (k + 1) (by omega)]
      have harith : (k + 1) + m = k + (m + 1) := by omega
      rw [harith]

theorem cap_validate : validateSentences (capItems 51) = .ok () := by rfl

theorem cap_threshold : validateThreshold 1 = .ok () :=
  validateThreshold_ok_iff.mpr ⟨by norm_num, le_refl 1⟩

theorem cap_flat_ids (g : ℕ → String) :
    ∀ l : List ℕ, ((l.map (capCluster g)).flatMap (fun c => c.sentenceIds)) =
      l.map (fun (i : ℕ) => (Sum.inl ((i : ℤ) + 1) : SId)) := by
  intro l
  induction l with
  | nil => rfl
  | cons a l ih => simp only [List.map_cons, List.flatMap_cons, ih]; rfl

theorem cap_finalize (g : ℕ → String) :
    finalizeResult (capState g maxClusters) =
      { clusters := []
        outliers := (List.range maxClusters).map (fun (i : ℕ) => (Sum.inl ((i : ℤ) + 1) : SId)) } := by
  unfold finalizeResult capState
  have h1 : ((List.range maxClusters).map (capCluster g)).filter
      (fun c => decide (minClusterSize ≤ c.sentenceIds.length)) = [] := by
    rw [List.filter_eq_nil]
    intro c hc
    obtain ⟨i, -, hi⟩ := List.mem_map.mp hc
    subst hi
    simp [capCluster, minClusterSize]
  have h2 : ((List.range maxClusters).map (capCluster g)).filter
      (fun c => !decide (minClusterSize ≤ c.sentenceIds.length)) =
      (List.range maxClusters).map (capCluster g) := by
    rw [List.filter_eq_self]
    intro c hc
    obtain ⟨i, -, hi⟩ := List.mem_map.mp hc
    subst hi
    simp [capCluster, minClusterSize]
  simp only [h1, h2, cap_flat_ids]
  rfl

/-- C1 (counterexample): 51 structurally valid items (ids 1..51, identical
embeddings) at threshold 1 make every item open a fresh singleton cluster;
after the 50th cluster the pass stops, so item 51 is neither in any cluster
nor in the outliers — the returned ids are exactly 1..50 and the input id 51
is omitted, refuting the claimed partition of *all* input item ids. -/
theorem C1_counterexample :
    clusterSentences (fun n => (List.replicate n 'a').asString) (capItems 51) 1 =
      .ok { clusters := []
            outliers := (List.range 50).map (fun (i : ℕ) => (Sum.inl ((i : ℤ) + 1) : SId)) } ∧
    (Sum.inl 51 : SId) ∈ (capItems 51).map (fun s => s.id) ∧
    (Sum.inl 51 : SId) ∉ (List.range 50).map (fun (i : ℕ) => (Sum.inl ((i : ℤ) + 1) : SId)) := by
  refine ⟨?_, ?_, ?_⟩
  · rw [clusterSentences_run cap_validate cap_threshold]
    have hstart : (loopPure (fun n => (List.replicate n 'a').asString) (capItems 51) 1
        { clusters := [], processed := [] } 0 (capItems 51)) =
        (capState (fun n => (List.replicate n 'a').asString) 50, 50) := by
      have h0 : capItems 51 = capItemsFrom 0 51 := by
        unfold capItems capItemsFrom
        refine List.map_congr_left ?_
        intro i hi
        congr 1
        omega
      nth_rewrite 2 [h0]
      have := cap_loop (fun n => (List.replicate n 'a').asString) 51 0
        (by norm_num [maxClusters])
      rw [show capState (fun n => (List.replicate n 'a').asString) 0 =
        { clusters := [], processed := [] } from rfl] at this
      rw [this, if_neg (by norm_num [maxClusters])]
      rfl
    rw [hstart]
    have := cap_finalize (fun n => (List.replicate n 'a').asString)
    simp only [maxClusters] at this ⊢
    rw [this]
  · refine List.mem_map.mpr ⟨capItem 50, ?_, rfl⟩
    exact List.mem_map.mpr ⟨50, List.mem_range.mpr (by norm_num), rfl⟩
  · simp only [List.mem_map, List.mem_range]
    rintro ⟨i, hi, he⟩
    have : (i : ℤ) + 1 = 51 := by simpa using he
    omega

end ClusteringService

namespace ClusteringService

/-- An injective id generator standing for fresh `generateClusterId` draws. -/
def wGen : ℕ → String := fun n => (List.replicate n 'a').asString

theorem wGen_injective : Function.Injective wGen := by
  intro a b h
  have h2 := congrArg String.length h
  simpa [wGen] using h2

/-- Witness for C1 (amended) on a concrete run: the two-item run at
threshold 0 keeps both ids, without duplicates, and the prefix is the whole
input since only one cluster is ever open. -/
theorem C1_witness :
    (assignedIds { clusters := [wClusterFinal wGen], outliers := [] } ++
      ([] : List SId)).Nodup ∧
    ∃ k ≤ ([wItem1, wItem2] : List SentenceWithEmbedding).length,
      (∀ x, x ∈ assignedIds { clusters := [wClusterFinal wGen], outliers := [] } ++
        ([] : List SId) ↔ x ∈ (([wItem1, wItem2] :
          List SentenceWithEmbedding).take k).map (fun s => s.id)) ∧
      ((loopPure wGen [wItem1, wItem2] 0 { clusters := [], processed := [] } 0
          [wItem1, wItem2]).1.clusters.length < maxClusters →
        k = ([wItem1, wItem2] : List SentenceWithEmbedding).length) :=
  C1_partition_amended wGen_injective (wRun wGen)

/-- Witness for C3 on a concrete run: in the two-item run the kept cluster's
centroid is the mean of its two members' embeddings. -/
theorem C3_witness :
    ∃ D : ℕ, (∀ s ∈ ([wItem1, wItem2] : List SentenceWithEmbedding),
        s.embedding.length = D) ∧
      ∀ c ∈ ({ clusters := [wClusterFinal wGen], outliers := [] } : ClusterResult).clusters,
        c.centroid = meanVec D (c.sentenceIds.map (embeddingOf [wItem1, wItem2])) :=
  C3_centroid_mean wGen_injective (wRun wGen)

/-- Witness for C5 on a concrete run: the kept cluster of the two-item run
has two members and the outlier list is empty. -/
theorem C5_witness :
    (∀ c ∈ ({ clusters := [wClusterFinal wGen], outliers := [] } : ClusterResult).clusters,
      minClusterSize ≤ c.sentenceIds.length) ∧
    ∀ i ∈ ({ clusters := [wClusterFinal wGen], outliers := [] } : ClusterResult).outliers,
      ∃ c ∈ (loopPure wGen [wItem1, wItem2] 0 { clusters := [], processed := [] } 0
        [wItem1, wItem2]).1.clusters, c.sentenceIds = [i] :=
  C5_minsize_outliers (wRun wGen)

end ClusteringService

namespace ClusteringService

/-! ## Determinism up to generated ids -/

def stripAcc (a : Option (ℕ × Cluster) × ℝ) : Option (ℕ × Cluster) × ℝ :=
  (a.1.map (fun p => (p.1, stripId p.2)), a.2)

theorem stripId_centroid (c : Cluster) : (stripId c).centroid = c.centroid := rfl

theorem bestPure_strip {threshold : ℝ} {embedding : List ℝ} :
    ∀ (cs1 cs2 : List Cluster), cs1.map stripId = cs2.map stripId →
    ∀ (i : ℕ) (acc1 acc2 : Option (ℕ × Cluster) × ℝ), stripAcc acc1 = stripAcc acc2 →
      stripAcc (bestPure threshold embedding cs1 i acc1) =
        stripAcc (bestPure threshold embedding cs2 i acc2) := by
  intro cs1
  induction cs1 with
  | nil =>
    intro cs2 hmap i acc1 acc2 hacc
    cases cs2 with
    | nil => exact hacc
    | cons c cs2 => exact absurd hmap (by simp)
  | cons c1 cs1 ih =>
    intro cs2 hmap i acc1 acc2 hacc
    cases cs2 with
    | nil => exact absurd hmap (by simp)
    | cons c2 cs2 =>
      simp only [List.map_cons, List.cons.injEq] at hmap
      have hcent : c1.centroid = c2.centroid := by
        rw [← stripId_centroid c1, ← stripId_centroid c2, hmap.1]
      have hsim : cosineSimilarityValue embedding c1.centroid =
          cosineSimilarityValue embedding c2.centroid := by rw [hcent]
      have hsnd : acc1.2 = acc2.2 := by
        have := congrArg Prod.snd hacc
        simpa [stripAcc] using this
      by_cases hcond : threshold < cosineSimilarityValue embedding c1.centroid ∧
          acc1.2 < cosineSimilarityValue embedding c1.centroid
      · rw [bestPure_cons_update hcond,
          bestPure_cons_update (by rw [← hsim, ← hsnd]; exact hcond)]
        refine ih cs2 hmap.2 (i + 1) _ _ ?_
        unfold stripAcc
        simp [hsim, hmap.1]
      · rw [bestPure_cons_keep hcond,
          bestPure_cons_keep (by rw [← hsim, ← hsnd]; exact hcond)]
        exact ih cs2 hmap.2 (i + 1) _ _ hacc

theorem assignPure_ids_pattern {idGen : ℕ → String} {pool : List SentenceWithEmbedding}
    {threshold : ℝ} {st : PassState} {nextId : ℕ} {s : SentenceWithEmbedding}
    (hpat : st.clusters.map (fun c => c.id) = (List.range nextId).map idGen)
    (hg : Function.Injective idGen) :
    (assignPure idGen pool threshold st nextId s).1.clusters.map (fun c => c.id) =
      (List.range (assignPure idGen pool threshold st nextId s).2).map idGen := by
  have hnd : (st.clusters.map (fun c => c.id)).Nodup := by
    rw [hpat]
    exact (List.nodup_range nextId).map hg
  rcases hbp : (bestPure threshold s.embedding st.clusters 0 (none, 0)).1 with _ | ⟨j, bc⟩
  · rw [assignPure_none_eq hbp]
    simp only [List.map_append, hpat, List.range_succ, List.map_cons, List.map_nil]
  · obtain ⟨hj, hbc, -, -, -, -⟩ := bestPure_some hbp
    rw [assignPure_some_eq hbp hnd]
    simp only
    rw [map_id_set_of_get hj _ (by rw [← hbc]), hpat]

theorem assignPure_strip {f g : ℕ → String} {pool : List SentenceWithEmbedding}
    {threshold : ℝ} {st1 st2 : PassState} {nextId : ℕ} {s : SentenceWithEmbedding}
    (hcl : st1.clusters.map stripId = st2.clusters.map stripId)
    (hproc : st1.processed = st2.processed)
    (hnd1 : (st1.clusters.map (fun c => c.id)).Nodup)
    (hnd2 : (st2.clusters.map (fun c => c.id)).Nodup) :
    (assignPure f pool threshold st1 nextId s).1.clusters.map stripId =
      (assignPure g pool threshold st2 nextId s).1.clusters.map stripId ∧
    (assignPure f pool threshold st1 nextId s).1.processed =
      (assignPure g pool threshold st2 nextId s).1.processed ∧
    (assignPure f pool threshold st1 nextId s).2 =
      (assignPure g pool threshold st2 nextId s).2 := by
  have hbest := @bestPure_strip threshold s.embedding
    st1.clusters st2.clusters hcl 0 (none, 0) (none, 0) rfl
  rcases hbp1 : (bestPure threshold s.embedding st1.clusters 0 (none, 0)).1 with _ | ⟨j1, bc1⟩
  · rcases hbp2 : (bestPure threshold s.embedding st2.clusters 0 (none, 0)).1 with _ | ⟨j2, bc2⟩
    · rw [assignPure_none_eq hbp1, assignPure_none_eq hbp2]
      refine ⟨?_, by rw [hproc], rfl⟩
      simp only [List.map_append, hcl, List.map_cons, List.map_nil]
      rfl
    · exfalso
      have h1 := congrArg Prod.fst hbest
      unfold stripAcc at h1
      rw [hbp1, hbp2] at h1
      simp at h1
  · rcases hbp2 : (bestPure threshold s.embedding st2.clusters 0 (none, 0)).1 with _ | ⟨j2, bc2⟩
    · exfalso
      have h1 := congrArg Prod.fst hbest
      unfold stripAcc at h1
      rw [hbp1, hbp2] at h1
      simp at h1
    · have h1 := congrArg Prod.fst hbest
      unfold stripAcc at h1
      rw [hbp1, hbp2] at h1
      have h2 : (j1, stripId bc1) = (j2, stripId bc2) := Option.some.inj (by simpa using h1)
      have hj : j1 = j2 := congrArg Prod.fst h2
      have hstrip : stripId bc1 = stripId bc2 := congrArg Prod.snd h2
      subst hj
      have hids : bc1.sentenceIds = bc2.sentenceIds := by
        rw [show bc1.sentenceIds = (stripId bc1).sentenceIds from rfl, hstrip]
        rfl
      have hcent : bc1.centroid = bc2.centroid := by
        rw [← stripId_centroid bc1, hstrip, stripId_centroid]
      rw [assignPure_some_eq hbp1 hnd1, assignPure_some_eq hbp2 hnd2]
      refine ⟨?_, by rw [hproc], rfl⟩
      simp only [List.map_set, hcl]
      congr 1
      unfold stripId
      simp only [Cluster.mk.injEq]
      exact ⟨trivial, by rw [hids], by rw [hids, hcent], by rw [hids], by rw [hids, hcent]⟩

end ClusteringService

namespace ClusteringService

theorem stripId_sentenceIds (c : Cluster) : (stripId c).sentenceIds = c.sentenceIds := rfl

theorem loopPure_strip {f g : ℕ → String} {pool : List SentenceWithEmbedding} {threshold : ℝ}
    (hf : Function.Injective f) (hg : Function.Injective g) :
    ∀ (rest : List SentenceWithEmbedding) (st1 st2 : PassState) (nextId : ℕ),
      st1.clusters.map stripId = st2.clusters.map stripId →
      st1.processed = st2.processed →
      st1.clusters.map (fun c => c.id) = (List.range nextId).map f →
      st2.clusters.map (fun c => c.id) = (List.range nextId).map g →
      (loopPure f pool threshold st1 nextId rest).1.clusters.map stripId =
        (loopPure g pool threshold st2 nextId rest).1.clusters.map stripId ∧
      (loopPure f pool threshold st1 nextId rest).1.processed =
        (loopPure g pool threshold st2 nextId rest).1.processed := by
  intro rest
  induction rest with
  | nil =>
    intro st1 st2 nextId hcl hproc hpat1 hpat2
    exact ⟨hcl, hproc⟩
  | cons s rest ih =>
    intro st1 st2 nextId hcl hproc hpat1 hpat2
    by_cases hmem : s.id ∈ st1.processed
    · rw [loopPure_cons_skip hmem, loopPure_cons_skip (hproc ▸ hmem)]
      exact ih st1 st2 nextId hcl hproc hpat1 hpat2
    · have hmem2 : s.id ∉ st2.processed := hproc ▸ hmem
      have hnd1 : (st1.clusters.map (fun c => c.id)).Nodup := by
        rw [hpat1]; exact (List.nodup_range nextId).map hf
      have hnd2 : (st2.clusters.map (fun c => c.id)).Nodup := by
        rw [hpat2]; exact (List.nodup_range nextId).map hg
      obtain ⟨hcl', hproc', hn'⟩ := @assignPure_strip f g pool threshold st1 st2
        nextId s hcl hproc hnd1 hnd2
      have hpat1' := @assignPure_ids_pattern f pool threshold st1 nextId s hpat1 hf
      have hpat2' := @assignPure_ids_pattern g pool threshold st2 nextId s hpat2 hg
      rcases hap1 : assignPure f pool threshold st1 nextId s with ⟨st1', n1⟩
      rcases hap2 : assignPure g pool threshold st2 nextId s with ⟨st2', n2⟩
      rw [hap1, hap2] at hcl' hproc' hn'
      rw [hap1] at hpat1'
      rw [hap2] at hpat2'
      simp only at hcl' hproc' hn' hpat1' hpat2'
      obtain rfl : n1 = n2 := hn'
      have hlen : st1'.clusters.length = st2'.clusters.length := by
        have := congrArg List.length hcl'
        simpa using this
      by_cases hbreak : maxClusters ≤ st1'.clusters.length
      · rw [loopPure_cons_break hmem hap1 hbreak,
          loopPure_cons_break hmem2 hap2 (hlen ▸ hbreak)]
        exact ⟨hcl', hproc'⟩
      · rw [loopPure_cons_continue hmem hap1 (Nat.lt_of_not_le hbreak),
          loopPure_cons_continue hmem2 hap2 (Nat.lt_of_not_le (hlen ▸ hbreak))]
        exact ih st1' st2' n1 hcl' hproc' hpat1' hpat2'

theorem filter_strip_eq :
    ∀ (l1 l2 : List Cluster), l1.map stripId = l2.map stripId →
      (l1.filter (fun c => decide (minClusterSize ≤ c.sentenceIds.length))).map stripId =
        (l2.filter (fun c => decide (minClusterSize ≤ c.sentenceIds.length))).map stripId ∧
      (l1.filter (fun c => !decide (minClusterSize ≤ c.sentenceIds.length))).flatMap
          (fun c => c.sentenceIds) =
        (l2.filter (fun c => !decide (minClusterSize ≤ c.sentenceIds.length))).flatMap
          (fun c => c.sentenceIds) := by
  intro l1
  induction l1 with
  | nil =>
    intro l2 hmap
    cases l2 with
    | nil => exact ⟨rfl, rfl⟩
    | cons c l2 => exact absurd hmap (by simp)
  | cons c1 l1 ih =>
    intro l2 hmap
    cases l2 with
    | nil => exact absurd hmap (by simp)
    | cons c2 l2 =>
      simp only [List.map_cons, List.cons.injEq] at hmap
      have hids : c1.sentenceIds = c2.sentenceIds := by
        rw [← stripId_sentenceIds c1, ← stripId_sentenceIds c2, hmap.1]
      obtain ⟨ih1, ih2⟩ := ih l2 hmap.2
      constructor
      · rw [List.filter_cons, List.filter_cons, ← hids]
        by_cases hp : decide (minClusterSize ≤ c1.sentenceIds.length) = true
        · rw [if_pos hp, if_pos hp]
          simp only [List.map_cons, ih1, hmap.1]
        · rw [if_neg hp, if_neg hp]
          exact ih1
      · rw [List.filter_cons, List.filter_cons, ← hids]
        by_cases hp : (!decide (minClusterSize ≤ c1.sentenceIds.length)) = true
        · rw [if_pos hp, if_pos hp]
          simp only [List.flatMap_cons, ih2, hids]
        · rw [if_neg hp, if_neg hp]
          exact ih2

theorem insert_strip_eq :
    ∀ (c1 c2 : Cluster) (l1 l2 : List Cluster), stripId c1 = stripId c2 →
      l1.map stripId = l2.map stripId →
      (insertClusterBySize c1 l1).map stripId = (insertClusterBySize c2 l2).map stripId := by
  intro c1 c2 l1
  induction l1 with
  | nil =>
    intro l2 hc hmap
    cases l2 with
    | nil => simpa [insertClusterBySize] using hc
    | cons d l2 => exact absurd hmap (by simp)
  | cons d1 l1 ih =>
    intro l2 hc hmap
    cases l2 with
    | nil => exact absurd hmap (by simp)
    | cons d2 l2 =>
      simp only [List.map_cons, List.cons.injEq] at hmap
      have hcids : c1.sentenceIds = c2.sentenceIds := by
        rw [← stripId_sentenceIds c1, ← stripId_sentenceIds c2, hc]
      have hdids : d1.sentenceIds = d2.sentenceIds := by
        rw [← stripId_sentenceIds d1, ← stripId_sentenceIds d2, hmap.1]
      rw [insertClusterBySize, insertClusterBySize]
      by_cases hlt : c1.sentenceIds.length < d1.sentenceIds.length
      · rw [if_pos hlt, if_pos (by rw [← hcids, ← hdids]; exact hlt)]
        simp only [List.map_cons, hmap.1, List.cons.injEq]
        exact ⟨trivial, ih l2 hc hmap.2⟩
      · rw [if_neg hlt, if_neg (by rw [← hcids, ← hdids]; exact hlt)]
        simp only [List.map_cons, hc, hmap.1, List.cons.injEq]
        exact ⟨trivial, trivial, hmap.2⟩

theorem sort_strip_eq :
    ∀ (l1 l2 : List Cluster), l1.map stripId = l2.map stripId →
      (sortClustersBySizeDesc l1).map stripId = (sortClustersBySizeDesc l2).map stripId := by
  intro l1
  induction l1 with
  | nil =>
    intro l2 hmap
    cases l2 with
    | nil => rfl
    | cons c l2 => exact absurd hmap (by simp)
  | cons c1 l1 ih =>
    intro l2 hmap
    cases l2 with
    | nil => exact absurd hmap (by simp)
    | cons c2 l2 =>
      simp only [List.map_cons, List.cons.injEq] at hmap
      rw [sortClustersBySizeDesc, sortClustersBySizeDesc]
      exact insert_strip_eq c1 c2 _ _ hmap.1 (ih l2 hmap.2)

theorem finalize_strip {st1 st2 : PassState}
    (hcl : st1.clusters.map stripId = st2.clusters.map stripId) :
    stripResult (finalizeResult st1) = stripResult (finalizeResult st2) := by
  obtain ⟨h1, h2⟩ := filter_strip_eq st1.clusters st2.clusters hcl
  unfold stripResult finalizeResult
  simp only
  rw [sort_strip_eq _ _ h1, h2]

theorem clusterSentences_val_error {idGen : ℕ → String} {sentences : List SentenceWithEmbedding}
    {threshold : ℝ} {e : Err} (h : validateSentences sentences = .error e) :
    clusterSentences idGen sentences threshold = .error e := by
  unfold clusterSentences
  rw [h]
  rfl

theorem clusterSentences_thr_error {idGen : ℕ → String} {sentences : List SentenceWithEmbedding}
    {threshold : ℝ} {e : Err} (hv : validateSentences sentences = .ok ())
    (h : validateThreshold threshold = .error e) :
    clusterSentences idGen sentences threshold = .error e := by
  unfold clusterSentences
  rw [hv, m_ok_bind, h]
  rfl

/-- C2 (amended): `clusterSentences` is deterministic *up to the generated
cluster ids*: for any two (injective) draws of the impure id generator, the
two runs on identical input and threshold agree exactly after erasing the
cluster `id` fields — same membership lists in the same order, same
centroids, themes, confidences and the same outliers in the same order.
(The ids themselves differ between calls; see the counterexample.) -/
theorem C2_determinism_amended {sentences : List SentenceWithEmbedding} {threshold : ℝ}
    {f g : ℕ → String} (hf : Function.Injective f) (hg : Function.Injective g) :
    Except.map stripResult (clusterSentences f sentences threshold) =
      Except.map stripResult (clusterSentences g sentences threshold) := by
  rcases hv : validateSentences sentences with e | u
  · rw [clusterSentences_val_error hv, clusterSentences_val_error hv]
  · rcases u
    rcases ht : validateThreshold threshold with e | u
    · rw [clusterSentences_thr_error hv ht, clusterSentences_thr_error hv ht]
    · rcases u
      rw [clusterSentences_run hv ht, clusterSentences_run hv ht]
      simp only [Except.map]
      obtain ⟨hcl, -⟩ := @loopPure_strip f g sentences threshold hf hg
        sentences { clusters := [], processed := [] } { clusters := [], processed := [] } 0
        rfl rfl (by simp) (by simp)
      rw [finalize_strip hcl]

def wGen2 : ℕ → String := fun n => (List.replicate n 'b').asString

theorem wGen2_injective : Function.Injective wGen2 := by
  intro a b h
  have h2 := congrArg String.length h
  simpa [wGen2] using h2

/-- Witness for C2 (amended) at a concrete input: two injective generator
draws produce, on the two-item run, results equal after erasing ids. -/
theorem C2_witness :
    Except.map stripResult (clusterSentences wGen [wItem1, wItem2] 0) =
      Except.map stripResult (clusterSentences wGen2 [wItem1, wItem2] 0) :=
  C2_determinism_amended wGen_injective wGen2_injective

end ClusteringService

namespace ClusteringService

/-- C4 (confirmed): one assignment step of the pass sends the item to the
open cluster whose centroid has the highest cosine similarity to the item's
embedding among those with similarity strictly above the threshold — on a
tie, the first such cluster in creation order — appending the item's id to
that cluster's members; when no cluster exceeds the threshold, a fresh
singleton cluster is appended whose centroid is a copy of the item's
embedding. -/
theorem C4_assignment_rule {idGen : ℕ → String} {pool : List SentenceWithEmbedding}
    {threshold : ℝ} {st : PassState} {nextId : ℕ} {s : SentenceWithEmbedding}
    (hpool : ∀ p ∈ pool, p.embedding.length = s.embedding.length)
    (hclusters : ∀ c ∈ st.clusters, c.centroid.length = s.embedding.length)
    (hnd : (st.clusters.map (fun c => c.id)).Nodup)
    (ht : 0 ≤ threshold) :
    (∃ (j : ℕ) (hj : j < st.clusters.length) (st' : PassState),
      threshold < cosineSimilarityValue s.embedding (st.clusters.get ⟨j, hj⟩).centroid ∧
      (∀ (m : ℕ) (hm : m < st.clusters.length),
        threshold < cosineSimilarityValue s.embedding (st.clusters.get ⟨m, hm⟩).centroid →
        cosineSimilarityValue s.embedding (st.clusters.get ⟨m, hm⟩).centroid ≤
          cosineSimilarityValue s.embedding (st.clusters.get ⟨j, hj⟩).centroid ∧
        (m < j → cosineSimilarityValue s.embedding (st.clusters.get ⟨m, hm⟩).centroid <
          cosineSimilarityValue s.embedding (st.clusters.get ⟨j, hj⟩).centroid)) ∧
      assignSentence idGen pool threshold st nextId s = .ok (st', nextId) ∧
      st'.clusters.map (fun c => c.sentenceIds) =
        (st.clusters.map (fun c => c.sentenceIds)).set j
          ((st.clusters.get ⟨j, hj⟩).sentenceIds ++ [s.id])) ∨
    ((∀ (m : ℕ) (hm : m < st.clusters.length),
        cosineSimilarityValue s.embedding (st.clusters.get ⟨m, hm⟩).centroid ≤ threshold) ∧
      ∃ st' : PassState, assignSentence idGen pool threshold st nextId s = .ok (st', nextId + 1) ∧
        st'.clusters = st.clusters ++
          [{ id := idGen nextId
             sentenceIds := [s.id]
             centroid := s.embedding
             theme := generateTheme [s]
             confidence := confidenceValue [s] s.embedding }]) := by
  have hok := @assignSentence_ok idGen pool threshold st nextId s hpool hclusters
  rcases hbp : (bestPure threshold s.embedding st.clusters 0 (none, 0)).1 with _ | ⟨j, bc⟩
  · refine Or.inr ⟨?_, ?_⟩
    · intro m hm
      exact (bestPure_none ht hbp).2 m hm
    · rw [assignPure_none_eq hbp] at hok
      exact ⟨_, hok, rfl⟩
  · obtain ⟨hj, hbc, -, hthr, hmax, hfirst⟩ := bestPure_some hbp
    rw [assignPure_some_eq hbp hnd] at hok
    refine Or.inl ⟨j, hj, _, by rw [← hbc]; exact hthr, ?_, hok, ?_⟩
    · intro m hm hm2
      refine ⟨by rw [← hbc]; exact hmax m hm hm2, ?_⟩
      intro hmj
      rw [← hbc]
      exact hfirst m hm hmj hm2
    · simp only [List.map_set, hbc]

/-- Witness for C4 at a concrete step: with no open clusters, the first item
creates a fresh singleton cluster whose centroid is its embedding. -/
theorem C4_witness :
    ∃ st' : PassState,
      assignSentence wGen [wItem1] 0 { clusters := [], processed := [] } 0 wItem1 =
        .ok (st', 1) ∧
      st'.clusters = [{ id := wGen 0
                        sentenceIds := [wItem1.id]
                        centroid := wItem1.embedding
                        theme := generateTheme [wItem1]
                        confidence := confidenceValue [wItem1] wItem1.embedding }] := by
  rcases @C4_assignment_rule wGen [wItem1] 0
      { clusters := [], processed := [] } 0 wItem1
      (by intro p hp; simp only [List.mem_singleton] at hp; rw [hp])
      (by intro c hc; exact absurd hc (by simp))
      (by simp) (le_refl 0) with ⟨j, hj, -⟩ | ⟨-, st', h1, h2⟩
  · exact absurd hj (by simp)
  · exact ⟨st', h1, h2⟩

def monoRel (t1 t2 : ℝ) (a1 a2 : Option (ℕ × Cluster) × ℝ) : Prop :=
  (a1 = a2 ∧ (a2.1 ≠ none → t2 < a2.2) ∧ (a2.1 = none → a2.2 = 0)) ∨
  (a2 = (none, 0) ∧ a1.2 ≤ t2 ∧ a1.1 ≠ none ∧ t1 < a1.2)

theorem bestPure_mono {embedding : List ℝ} {t1 t2 : ℝ} (h0 : 0 ≤ t1) (h12 : t1 ≤ t2) :
    ∀ (cs : List Cluster) (i : ℕ) (a1 a2 : Option (ℕ × Cluster) × ℝ),
      monoRel t1 t2 a1 a2 →
      monoRel t1 t2 (bestPure t1 embedding cs i a1) (bestPure t2 embedding cs i a2) := by
  intro cs
  induction cs with
  | nil => intro i a1 a2 h; exact h
  | cons c cs ih =>
    intro i a1 a2 hrel
    by_cases hc2 : t2 < cosineSimilarityValue embedding c.centroid ∧
        a2.2 < cosineSimilarityValue embedding c.centroid
    · have hc1 : t1 < cosineSimilarityValue embedding c.centroid ∧
          a1.2 < cosineSimilarityValue embedding c.centroid := by
        rcases hrel with ⟨heq, -, -⟩ | ⟨-, hle, -, -⟩
        · rw [heq]
          exact ⟨lt_of_le_of_lt h12 hc2.1, hc2.2⟩
        · exact ⟨lt_of_le_of_lt h12 hc2.1, lt_of_le_of_lt hle hc2.1⟩
      rw [bestPure_cons_update hc1, bestPure_cons_update hc2]
      refine ih (i + 1) _ _ (Or.inl ⟨rfl, ?_, ?_⟩)
      · intro _
        exact hc2.1
      · intro h
        exact absurd h (by simp)
    · by_cases hc1 : t1 < cosineSimilarityValue embedding c.centroid ∧
          a1.2 < cosineSimilarityValue embedding c.centroid
      · rw [bestPure_cons_update hc1, bestPure_cons_keep hc2]
        rcases hrel with ⟨heq, hsome, hnone⟩ | ⟨ha2, hle, hne, hlt⟩
        · rcases hopt : a2.1 with _ | p
          · have hz : a2.2 = 0 := hnone hopt
            have ha2eq : a2 = (none, 0) := by
              rcases a2 with ⟨o, v⟩
              simp only at hopt hz
              rw [hopt, hz]
            have hsle : cosineSimilarityValue embedding c.centroid ≤ t2 := by
              by_contra hgt
              refine hc2 ⟨lt_of_not_le hgt, ?_⟩
              rw [ha2eq]
              rw [heq, ha2eq] at hc1
              exact hc1.2
            exact ih (i + 1) _ _ (Or.inr ⟨ha2eq, hsle, by simp, hc1.1⟩)
          · exfalso
            have ht2 : t2 < a2.2 := hsome (by rw [hopt]; simp)
            rw [heq] at hc1
            exact hc2 ⟨lt_trans ht2 hc1.2, hc1.2⟩
        · have hsle : cosineSimilarityValue embedding c.centroid ≤ t2 := by
            by_contra hgt
            refine hc2 ⟨lt_of_not_le hgt, ?_⟩
            rw [ha2]
            exact lt_of_le_of_lt h0 (lt_of_le_of_lt h12 (lt_of_not_le hgt))
          exact ih (i + 1) _ _ (Or.inr ⟨ha2, hsle, by simp, hc1.1⟩)
      · rw [bestPure_cons_keep hc1, bestPure_cons_keep hc2]
        exact ih (i + 1) _ _ hrel

/-- C7 (amended): against a fixed list of open clusters, the best-cluster
search is monotone in the threshold: whenever the search at threshold `t2`
selects a cluster, the search at any lower (nonnegative) threshold `t1`
selects the very same cluster with the same similarity — lowering the
threshold never loses an assignment at a fixed state.  The global count of
items in non-singleton clusters is NOT monotone in the threshold (see the
counterexample). -/
theorem C7_stepwise_monotone {embedding : List ℝ} {t1 t2 s : ℝ}
    {clusters : List Cluster} {j : ℕ} {c : Cluster}
    (hdim : ∀ d ∈ clusters, d.centroid.length = embedding.length)
    (h0 : 0 ≤ t1) (h12 : t1 ≤ t2)
    (h : findBestCluster t2 embedding clusters = .ok (some (j, c), s)) :
    findBestCluster t1 embedding clusters = .ok (some (j, c), s) := by
  rw [findBestCluster_ok hdim] at h ⊢
  have hb2 : bestPure t2 embedding clusters 0 (none, 0) = (some (j, c), s) := Except.ok.inj h
  have hrel := @bestPure_mono embedding t1 t2 h0 h12 clusters 0 (none, 0) (none, 0)
    (Or.inl ⟨rfl, by simp, by intro h; rfl⟩)
  rcases hrel with ⟨heq, -, -⟩ | ⟨ha2, -, -, -⟩
  · rw [heq, hb2]
  · rw [hb2] at ha2
    exact absurd (congrArg Prod.fst ha2) (by simp)

end ClusteringService

namespace ClusteringService

/-- Witness for C7 (amended) at a concrete state: the cluster found at
threshold 1/2 is still found, with the same similarity, at threshold 0. -/
theorem C7_witness :
    findBestCluster 0 [(1 : ℝ)] [wCluster0 wGen] = .ok (some (0, wCluster0 wGen), 1) := by
  refine @C7_stepwise_monotone [(1 : ℝ)] 0 (1/2) 1 [wCluster0 wGen] 0 (wCluster0 wGen)
    ?_ (le_refl 0) (by norm_num) ?_
  · intro d hd
    simp only [List.mem_singleton] at hd
    rw [hd]
    rfl
  · rw [findBestCluster_ok (by intro d hd; simp only [List.mem_singleton] at hd; rw [hd]; rfl)]
    have hsim : cosineSimilarityValue [(1 : ℝ)] (wCluster0 wGen).centroid = 1 :=
      cosineSimilarityValue_one_one
    rw [bestPure_cons_update (by rw [hsim]; norm_num), bestPure_nil, hsim]

/-- The six-item pool of the threshold-monotonicity counterexample. -/
def c7s1 : SentenceWithEmbedding := { id := .inl 1, text := "hi", embedding := [1, 0] }
def c7s2 : SentenceWithEmbedding := { id := .inl 2, text := "hi", embedding := [1, 0] }
def c7s3 : SentenceWithEmbedding := { id := .inl 3, text := "hi", embedding := [1, 0] }
def c7s4 : SentenceWithEmbedding := { id := .inl 4, text := "hi", embedding := [1, 0] }
def c7s5 : SentenceWithEmbedding := { id := .inl 5, text := "hi", embedding := [5, 4] }
def c7s6 : SentenceWithEmbedding := { id := .inl 6, text := "hi", embedding := [1, 2] }

def c7Items : List SentenceWithEmbedding := [c7s1, c7s2, c7s3, c7s4, c7s5, c7s6]

/-- The cluster created by the no-match branch of an assignment step. -/
noncomputable def freshCluster (idGen : ℕ → String) (nextId : ℕ)
    (s : SentenceWithEmbedding) : Cluster :=
  { id := idGen nextId
    sentenceIds := [s.id]
    centroid := s.embedding
    theme := generateTheme [s]
    confidence := confidenceValue [s] s.embedding }

/-- The mutated cluster produced when an item joins an existing cluster. -/
noncomputable def joinedCluster (pool : List SentenceWithEmbedding) (bc : Cluster)
    (s : SentenceWithEmbedding) : Cluster :=
  { id := bc.id
    sentenceIds := bc.sentenceIds ++ [s.id]
    centroid := updateCentroidValue bc.centroid s.embedding (bc.sentenceIds ++ [s.id]).length
    theme := generateTheme (pool.filter (fun x => (bc.sentenceIds ++ [s.id]).contains x.id))
    confidence := confidenceValue
      (pool.filter (fun x => (bc.sentenceIds ++ [s.id]).contains x.id))
      (updateCentroidValue bc.centroid s.embedding (bc.sentenceIds ++ [s.id]).length) }

theorem assignPure_some_eqJ {idGen : ℕ → String} {pool : List SentenceWithEmbedding}
    {threshold : ℝ} {st : PassState} {nextId : ℕ} {s : SentenceWithEmbedding}
    {j : ℕ} {bc : Cluster}
    (hbp : (bestPure threshold s.embedding st.clusters 0 (none, 0)).1 = some (j, bc))
    (hnd : (st.clusters.map (fun c => c.id)).Nodup) :
    assignPure idGen pool threshold st nextId s =
      ({ clusters := st.clusters.set j (joinedCluster pool bc s)
         processed := s.id :: st.processed }, nextId) :=
  assignPure_some_eq hbp hnd

theorem assignPure_none_eqF {idGen : ℕ → String} {pool : List SentenceWithEmbedding}
    {threshold : ℝ} {st : PassState} {nextId : ℕ} {s : SentenceWithEmbedding}
    (hbp : (bestPure threshold s.embedding st.clusters 0 (none, 0)).1 = none) :
    assignPure idGen pool threshold st nextId s =
      ({ clusters := st.clusters ++ [freshCluster idGen nextId s]
         processed := s.id :: st.processed }, nextId + 1) :=
  assignPure_none_eq hbp

noncomputable def c7A1 : Cluster := freshCluster wGen 0 c7s1
noncomputable def c7A2 : Cluster := joinedCluster c7Items c7A1 c7s2
noncomputable def c7A3 : Cluster := joinedCluster c7Items c7A2 c7s3
noncomputable def c7A4 : Cluster := joinedCluster c7Items c7A3 c7s4
noncomputable def c7A5 : Cluster := joinedCluster c7Items c7A4 c7s5
noncomputable def c7C6 : Cluster := freshCluster wGen 1 c7s6
noncomputable def c7B5 : Cluster := freshCluster wGen 1 c7s5
noncomputable def c7B6 : Cluster := joinedCluster c7Items c7B5 c7s6

theorem c7A1_centroid : c7A1.centroid = [1, 0] := rfl

theorem c7A2_centroid : c7A2.centroid = [1, 0] := by
  show updateCentroidValue [1, 0] [1, 0] 2 = [1, 0]
  unfold updateCentroidValue
  norm_num

theorem c7A3_centroid : c7A3.centroid = [1, 0] := by
  show updateCentroidValue c7A2.centroid [1, 0] 3 = [1, 0]
  rw [c7A2_centroid]
  unfold updateCentroidValue
  norm_num

theorem c7A4_centroid : c7A4.centroid = [1, 0] := by
  show updateCentroidValue c7A3.centroid [1, 0] 4 = [1, 0]
  rw [c7A3_centroid]
  unfold updateCentroidValue
  norm_num

theorem c7A5_centroid : c7A5.centroid = [9/5, 4/5] := by
  show updateCentroidValue c7A4.centroid [5, 4] 5 = [9/5, 4/5]
  rw [c7A4_centroid]
  unfold updateCentroidValue
  norm_num

end ClusteringService

namespace ClusteringService

theorem c7sim_unit : cosineSimilarityValue [(1 : ℝ), 0] [1, 0] = 1 := by
  have h := @cosineSimilarityValue_eq [(1 : ℝ), 0] [1, 0] 1 1 1
    (by norm_num [dotProduct]) (by norm_num [sumSquares]) (by norm_num [sumSquares])
    (by norm_num) (by norm_num)
  rw [h, Real.sqrt_one]
  norm_num

theorem c7sim45 :
    cosineSimilarityValue [(5 : ℝ), 4] [1, 0] = 5 / (Real.sqrt 41 * Real.sqrt 1) :=
  cosineSimilarityValue_eq (by norm_num [dotProduct]) (by norm_num [sumSquares])
    (by norm_num [sumSquares]) (by norm_num) (by norm_num)

theorem c7sim6A5 :
    cosineSimilarityValue [(1 : ℝ), 2] [9/5, 4/5] =
      (17/5) / (Real.sqrt 5 * Real.sqrt (97/25)) :=
  cosineSimilarityValue_eq (by norm_num [dotProduct]) (by norm_num [sumSquares])
    (by norm_num [sumSquares]) (by norm_num) (by norm_num)

theorem c7sim6A4 :
    cosineSimilarityValue [(1 : ℝ), 2] [1, 0] = 1 / (Real.sqrt 5 * Real.sqrt 1) :=
  cosineSimilarityValue_eq (by norm_num [dotProduct]) (by norm_num [sumSquares])
    (by norm_num [sumSquares]) (by norm_num) (by norm_num)

theorem c7sim6B5 :
    cosineSimilarityValue [(1 : ℝ), 2] [5, 4] = 13 / (Real.sqrt 5 * Real.sqrt 41) :=
  cosineSimilarityValue_eq (by norm_num [dotProduct]) (by norm_num [sumSquares])
    (by norm_num [sumSquares]) (by norm_num) (by norm_num)

theorem c7h5gt1 : (39/50 : ℝ) < 5 / (Real.sqrt 41 * Real.sqrt 1) :=
  div_sqrt_lt_of_sq (by norm_num) (by norm_num) (by norm_num) (by norm_num) (by norm_num)

theorem c7h5le2 : 5 / (Real.sqrt 41 * Real.sqrt 1) ≤ (4/5 : ℝ) :=
  div_sqrt_le_of_sq (by norm_num) (by norm_num) (by norm_num) (by norm_num) (by norm_num)

theorem c7h6A5le1 : (17/5 : ℝ) / (Real.sqrt 5 * Real.sqrt (97/25)) ≤ 39/50 :=
  div_sqrt_le_of_sq (by norm_num) (by norm_num) (by norm_num) (by norm_num) (by norm_num)

theorem c7h6A4le2 : (1 : ℝ) / (Real.sqrt 5 * Real.sqrt 1) ≤ 4/5 :=
  div_sqrt_le_of_sq (by norm_num) (by norm_num) (by norm_num) (by norm_num) (by norm_num)

theorem c7h6B5gt2 : (4/5 : ℝ) < 13 / (Real.sqrt 5 * Real.sqrt 41) :=
  div_sqrt_lt_of_sq (by norm_num) (by norm_num) (by norm_num) (by norm_num) (by norm_num)

end ClusteringService

namespace ClusteringService

theorem c7bestOne {t : ℝ} (ht : t < 1) {c : Cluster} (hc : c.centroid = [1, 0])
    {emb : List ℝ} (he : emb = [1, 0]) :
    bestPure t emb [c] 0 (none, 0) = (some (0, c), 1) := by
  have hsim : cosineSimilarityValue emb c.centroid = 1 := by
    rw [he, hc]
    exact c7sim_unit
  rw [bestPure_cons_update (by rw [hsim]; exact ⟨ht, by norm_num⟩), bestPure_nil, hsim]

theorem c7step1 (t : ℝ) :
    assignPure wGen c7Items t { clusters := [], processed := [] } 0 c7s1 =
      ({ clusters := [c7A1], processed := [.inl 1] }, 1) := by
  rw [@assignPure_none_eqF wGen c7Items t { clusters := [], processed := [] } 0 c7s1 rfl]
  rfl

theorem c7step2 {t : ℝ} (ht : t < 1) :
    assignPure wGen c7Items t { clusters := [c7A1], processed := [.inl 1] } 1 c7s2 =
      ({ clusters := [c7A2], processed := [.inl 2, .inl 1] }, 1) := by
  have hbp : (bestPure t c7s2.embedding [c7A1] 0 (none, 0)).1 = some (0, c7A1) := by
    rw [@c7bestOne t ht c7A1 c7A1_centroid c7s2.embedding rfl]
  rw [@assignPure_some_eqJ wGen c7Items t { clusters := [c7A1], processed := [.inl 1] }
    1 c7s2 0 c7A1 hbp (by simp)]
  rfl

theorem c7step3 {t : ℝ} (ht : t < 1) :
    assignPure wGen c7Items t { clusters := [c7A2], processed := [.inl 2, .inl 1] } 1 c7s3 =
      ({ clusters := [c7A3], processed := [.inl 3, .inl 2, .inl 1] }, 1) := by
  have hbp : (bestPure t c7s3.embedding [c7A2] 0 (none, 0)).1 = some (0, c7A2) := by
    rw [@c7bestOne t ht c7A2 c7A2_centroid c7s3.embedding rfl]
  rw [@assignPure_some_eqJ wGen c7Items t
    { clusters := [c7A2], processed := [.inl 2, .inl 1] } 1 c7s3 0 c7A2 hbp (by simp)]
  rfl

theorem c7step4 {t : ℝ} (ht : t < 1) :
    assignPure wGen c7Items t
        { clusters := [c7A3], processed := [.inl 3, .inl 2, .inl 1] } 1 c7s4 =
      ({ clusters := [c7A4], processed := [.inl 4, .inl 3, .inl 2, .inl 1] }, 1) := by
  have hbp : (bestPure t c7s4.embedding [c7A3] 0 (none, 0)).1 = some (0, c7A3) := by
    rw [@c7bestOne t ht c7A3 c7A3_centroid c7s4.embedding rfl]
  rw [@assignPure_some_eqJ wGen c7Items t
    { clusters := [c7A3], processed := [.inl 3, .inl 2, .inl 1] } 1 c7s4 0 c7A3 hbp (by simp)]
  rfl

theorem c7step5lo :
    assignPure wGen c7Items (39/50)
        { clusters := [c7A4], processed := [.inl 4, .inl 3, .inl 2, .inl 1] } 1 c7s5 =
      ({ clusters := [c7A5], processed := [.inl 5, .inl 4, .inl 3, .inl 2, .inl 1] }, 1) := by
  have hsim : cosineSimilarityValue c7s5.embedding c7A4.centroid =
      5 / (Real.sqrt 41 * Real.sqrt 1) := by
    rw [c7A4_centroid]
    exact c7sim45
  have hbp : (bestPure (39/50) c7s5.embedding [c7A4] 0 (none, 0)).1 = some (0, c7A4) := by
    rw [bestPure_cons_update
      (by rw [hsim]; exact ⟨c7h5gt1, lt_of_le_of_lt (by norm_num) c7h5gt1⟩), bestPure_nil]
  rw [@assignPure_some_eqJ wGen c7Items (39/50)
    { clusters := [c7A4], processed := [.inl 4, .inl 3, .inl 2, .inl 1] }
    1 c7s5 0 c7A4 hbp (by simp)]
  rfl

theorem c7step6lo :
    assignPure wGen c7Items (39/50)
        { clusters := [c7A5], processed := [.inl 5, .inl 4, .inl 3, .inl 2, .inl 1] } 1 c7s6 =
      ({ clusters := [c7A5, c7C6]
         processed := [.inl 6, .inl 5, .inl 4, .inl 3, .inl 2, .inl 1] }, 2) := by
  have hsim : cosineSimilarityValue c7s6.embedding c7A5.centroid =
      (17/5) / (Real.sqrt 5 * Real.sqrt (97/25)) := by
    rw [c7A5_centroid]
    exact c7sim6A5
  have hle : cosineSimilarityValue c7s6.embedding c7A5.centroid ≤ 39/50 := by
    rw [hsim]
    exact c7h6A5le1
  have hbp : (bestPure (39/50) c7s6.embedding [c7A5] 0 (none, 0)).1 = none := by
    rw [bestPure_cons_keep (fun h => absurd h.1 (not_lt.mpr hle)), bestPure_nil]
  rw [@assignPure_none_eqF wGen c7Items (39/50)
    { clusters := [c7A5], processed := [.inl 5, .inl 4, .inl 3, .inl 2, .inl 1] } 1 c7s6 hbp]
  rfl

theorem c7step5hi :
    assignPure wGen c7Items (4/5)
        { clusters := [c7A4], processed := [.inl 4, .inl 3, .inl 2, .inl 1] } 1 c7s5 =
      ({ clusters := [c7A4, c7B5]
         processed := [.inl 5, .inl 4, .inl 3, .inl 2, .inl 1] }, 2) := by
  have hsim : cosineSimilarityValue c7s5.embedding c7A4.centroid =
      5 / (Real.sqrt 41 * Real.sqrt 1) := by
    rw [c7A4_centroid]
    exact c7sim45
  have hle : cosineSimilarityValue c7s5.embedding c7A4.centroid ≤ 4/5 := by
    rw [hsim]
    exact c7h5le2
  have hbp : (bestPure (4/5) c7s5.embedding [c7A4] 0 (none, 0)).1 = none := by
    rw [bestPure_cons_keep (fun h => absurd h.1 (not_lt.mpr hle)), bestPure_nil]
  rw [@assignPure_none_eqF wGen c7Items (4/5)
    { clusters := [c7A4], processed := [.inl 4, .inl 3, .inl 2, .inl 1] } 1 c7s5 hbp]
  rfl

theorem c7step6hi :
    assignPure wGen c7Items (4/5)
        { clusters := [c7A4, c7B5]
          processed := [.inl 5, .inl 4, .inl 3, .inl 2, .inl 1] } 2 c7s6 =
      ({ clusters := [c7A4, c7B6]
         processed := [.inl 6, .inl 5, .inl 4, .inl 3, .inl 2, .inl 1] }, 2) := by
  have hsimA : cosineSimilarityValue c7s6.embedding c7A4.centroid =
      1 / (Real.sqrt 5 * Real.sqrt 1) := by
    rw [c7A4_centroid]
    exact c7sim6A4
  have hleA : cosineSimilarityValue c7s6.embedding c7A4.centroid ≤ 4/5 := by
    rw [hsimA]
    exact c7h6A4le2
  have hsimB : cosineSimilarityValue c7s6.embedding c7B5.centroid =
      13 / (Real.sqrt 5 * Real.sqrt 41) := by
    show cosineSimilarityValue c7s6.embedding [5, 4] = _
    exact c7sim6B5
  have hbp : (bestPure (4/5) c7s6.embedding [c7A4, c7B5] 0 (none, 0)).1 = some (1, c7B5) := by
    rw [bestPure_cons_keep (fun h => absurd h.1 (not_lt.mpr hleA)),
      bestPure_cons_update
        (by rw [hsimB]
            exact ⟨c7h6B5gt2, lt_of_le_of_lt (by norm_num) c7h6B5gt2⟩),
      bestPure_nil]
  have h01 : wGen 0 ≠ wGen 1 := fun h => absurd (wGen_injective h) (by norm_num)
  have hnd : (([c7A4, c7B5] : List Cluster).map (fun c => c.id)).Nodup := by
    show ([wGen 0, wGen 1] : List String).Nodup
    simp [h01]
  rw [@assignPure_some_eqJ wGen c7Items (4/5)
    { clusters := [c7A4, c7B5]
      processed := [.inl 5, .inl 4, .inl 3, .inl 2, .inl 1] } 2 c7s6 1 c7B5 hbp hnd]
  rfl

end ClusteringService

namespace ClusteringService

theorem c7validate : validateSentences c7Items = .ok () := by rfl

theorem c7thr_lo : validateThreshold (39/50) = .ok () :=
  validateThreshold_ok_iff.mpr ⟨by norm_num, by norm_num⟩

theorem c7thr_hi : validateThreshold (4/5) = .ok () :=
  validateThreshold_ok_iff.mpr ⟨by norm_num, by norm_num⟩

theorem c7loop_lo :
    loopPure wGen c7Items (39/50) { clusters := [], processed := [] } 0 c7Items =
      ({ clusters := [c7A5, c7C6]
         processed := [.inl 6, .inl 5, .inl 4, .inl 3, .inl 2, .inl 1] }, 2) := by
  show loopPure wGen c7Items (39/50) { clusters := [], processed := [] } 0
    [c7s1, c7s2, c7s3, c7s4, c7s5, c7s6] = _
  rw [loopPure_cons_continue (by simp) (c7step1 _) (by show (1 : ℕ) < 50; norm_num),
    loopPure_cons_continue (by decide) (c7step2 (by norm_num)) (by show (1 : ℕ) < 50; norm_num),
    loopPure_cons_continue (by decide) (c7step3 (by norm_num)) (by show (1 : ℕ) < 50; norm_num),
    loopPure_cons_continue (by decide) (c7step4 (by norm_num)) (by show (1 : ℕ) < 50; norm_num),
    loopPure_cons_continue (by decide) c7step5lo (by show (1 : ℕ) < 50; norm_num),
    loopPure_cons_continue (by decide) c7step6lo (by show (2 : ℕ) < 50; norm_num),
    loopPure_nil]

theorem c7loop_hi :
    loopPure wGen c7Items (4/5) { clusters := [], processed := [] } 0 c7Items =
      ({ clusters := [c7A4, c7B6]
         processed := [.inl 6, .inl 5, .inl 4, .inl 3, .inl 2, .inl 1] }, 2) := by
  show loopPure wGen c7Items (4/5) { clusters := [], processed := [] } 0
    [c7s1, c7s2, c7s3, c7s4, c7s5, c7s6] = _
  rw [loopPure_cons_continue (by simp) (c7step1 _) (by show (1 : ℕ) < 50; norm_num),
    loopPure_cons_continue (by decide) (c7step2 (by norm_num)) (by show (1 : ℕ) < 50; norm_num),
    loopPure_cons_continue (by decide) (c7step3 (by norm_num)) (by show (1 : ℕ) < 50; norm_num),
    loopPure_cons_continue (by decide) (c7step4 (by norm_num)) (by show (1 : ℕ) < 50; norm_num),
    loopPure_cons_continue (by decide) c7step5hi (by show (2 : ℕ) < 50; norm_num),
    loopPure_cons_continue (by decide) c7step6hi (by show (2 : ℕ) < 50; norm_num),
    loopPure_nil]

theorem c7run_lo :
    clusterSentences wGen c7Items (39/50) =
      .ok { clusters := [c7A5], outliers := [.inl 6] } := by
  rw [clusterSentences_run c7validate c7thr_lo, c7loop_lo]
  rfl

theorem c7run_hi :
    clusterSentences wGen c7Items (4/5) =
      .ok { clusters := [c7A4, c7B6], outliers := [] } := by
  rw [clusterSentences_run c7validate c7thr_hi, c7loop_hi]
  rfl

/-- C7 (counterexample): on a fixed valid six-item input, raising the
threshold from 39/50 to 4/5 INCREASES the number of items assigned to kept
(size ≥ `minClusterSize`) clusters from five to six.  At the lower threshold
the fifth item joins the one open cluster and drags its centroid away, so
the sixth item matches nothing and ends up an outlier; at the higher
threshold the fifth item instead opens a second cluster that the sixth item
then joins, leaving no outliers. -/
theorem C7_counterexample :
    (39/50 : ℝ) ≤ 4/5 ∧
    ∃ r1 r2 : ClusterResult,
      clusterSentences wGen c7Items (39/50) = .ok r1 ∧
      clusterSentences wGen c7Items (4/5) = .ok r2 ∧
      (r1.clusters.map (fun c => c.sentenceIds.length)).sum = 5 ∧
      r1.outliers = [.inl 6] ∧
      (r2.clusters.map (fun c => c.sentenceIds.length)).sum = 6 ∧
      r2.outliers = [] := by
  refine ⟨by norm_num, _, _, c7run_lo, c7run_hi, rfl, rfl, rfl, rfl⟩

end ClusteringService

namespace ClusteringService

def c10s1 : SentenceWithEmbedding := { id := .inl 1, text := "hi", embedding := [1] }
def c10s2 : SentenceWithEmbedding := { id := .inl 2, text := "hi", embedding := [1] }
def c10s3 : SentenceWithEmbedding := { id := .inl 3, text := "hi", embedding := [1] }

def c10pool : List SentenceWithEmbedding := [c10s1, c10s2, c10s3]

def c10c1 : Cluster :=
  { id := "x", sentenceIds := [.inl 1, .inl 2], centroid := [1], theme := "t", confidence := 1 }

def c10c2 : Cluster :=
  { id := "y", sentenceIds := [.inl 2, .inl 3], centroid := [1], theme := "t", confidence := 1 }

/-- C10 (confirmed): `mergeClusters` implicitly requires disjoint member-id
lists.  Here the two non-empty clusters share the member id `2`, every
referenced id is resolvable in the pool (which has no duplicate ids), yet the
merge throws the missing-member validation error: the concatenated id list
counts the shared id twice while the pool filter can match it only once. -/
theorem C10_overlap_merge_error :
    mergeClusters "z" c10c1 c10c2 c10pool =
      .error (.validationError "Some sentences not found in the provided sentences array") ∧
    c10c1.sentenceIds ≠ [] ∧ c10c2.sentenceIds ≠ [] ∧
    (∃ i, i ∈ c10c1.sentenceIds ∧ i ∈ c10c2.sentenceIds) ∧
    (∀ i ∈ c10c1.sentenceIds ++ c10c2.sentenceIds, ∃ s ∈ c10pool, s.id = i) ∧
    (c10pool.map (fun s => s.id)).Nodup := by
  refine ⟨rfl, by decide, by decide, ⟨.inl 2, by decide, by decide⟩, by decide, by decide⟩

theorem weightedCentroid_length (w1 w2 : ℝ) :
    ∀ (a b : List ℝ), (weightedCentroid w1 w2 a b).length = a.length := by
  intro a
  induction a with
  | nil => intro b; cases b <;> rfl
  | cons x xs ih =>
    intro b
    cases b with
    | nil => simp [weightedCentroid, ih []]
    | cons y ys => simp [weightedCentroid, ih ys]

theorem weightedCentroid_eq_zipWith (w1 w2 : ℝ) :
    ∀ (a b : List ℝ), b.length = a.length →
      weightedCentroid w1 w2 a b = List.zipWith (fun x y => x * w1 + y * w2) a b := by
  intro a
  induction a with
  | nil =>
    intro b hb
    cases b with
    | nil => rfl
    | cons y ys => simp at hb
  | cons x xs ih =>
    intro b hb
    cases b with
    | nil => simp at hb
    | cons y ys =>
      simp only [weightedCentroid, List.zipWith_cons_cons]
      rw [ih ys (by simpa using hb)]

end ClusteringService

namespace ClusteringService

/-- C8 (amended): when the dimensions line up — `cluster2.centroid` as long as
`cluster1.centroid` and every pool embedding of that same length — and the
pool filter resolves every concatenated member id (counted with
multiplicity), `mergeClusters` succeeds and returns a cluster whose id is the
fresh `newId`, whose member list is exactly `c1.sentenceIds ++
c2.sentenceIds` (so its length is the sum of the two lengths), and whose
centroid is the member-count-weighted average of the two centroids,
coordinate by coordinate.  The inputs are untouched (the model is
functional: the result is a new record).  Without the dimension hypotheses
the merge can throw instead (see the counterexample). -/
theorem C8_merge_amended {newId : String} {c1 c2 : Cluster}
    {pool : List SentenceWithEmbedding}
    (h1 : c1.sentenceIds ≠ []) (h2 : c2.sentenceIds ≠ [])
    (hcount : (pool.filter
        (fun s => (c1.sentenceIds ++ c2.sentenceIds).contains s.id)).length =
      (c1.sentenceIds ++ c2.sentenceIds).length)
    (hdim2 : c2.centroid.length = c1.centroid.length)
    (hpool : ∀ s ∈ pool, s.embedding.length = c1.centroid.length) :
    mergeClusters newId c1 c2 pool =
      .ok { id := newId
            sentenceIds := c1.sentenceIds ++ c2.sentenceIds
            centroid := List.zipWith
              (fun x y =>
                x * ((c1.sentenceIds.length : ℝ) /
                  (((c1.sentenceIds ++ c2.sentenceIds).length : ℕ) : ℝ)) +
                y * ((c2.sentenceIds.length : ℝ) /
                  (((c1.sentenceIds ++ c2.sentenceIds).length : ℕ) : ℝ)))
              c1.centroid c2.centroid
            theme := generateTheme (pool.filter
              (fun s => (c1.sentenceIds ++ c2.sentenceIds).contains s.id))
            confidence := confidenceValue
              (pool.filter (fun s => (c1.sentenceIds ++ c2.sentenceIds).contains s.id))
              (weightedCentroid
                ((c1.sentenceIds.length : ℝ) /
                  (((c1.sentenceIds ++ c2.sentenceIds).length : ℕ) : ℝ))
                ((c2.sentenceIds.length : ℝ) /
                  (((c1.sentenceIds ++ c2.sentenceIds).length : ℕ) : ℝ))
                c1.centroid c2.centroid) } ∧
    (c1.sentenceIds ++ c2.sentenceIds).length =
      c1.sentenceIds.length + c2.sentenceIds.length := by
  have hconf : calculateClusterConfidence
      (pool.filter (fun s => (c1.sentenceIds ++ c2.sentenceIds).contains s.id))
      (weightedCentroid
        ((c1.sentenceIds.length : ℝ) /
          (((c1.sentenceIds ++ c2.sentenceIds).length : ℕ) : ℝ))
        ((c2.sentenceIds.length : ℝ) /
          (((c1.sentenceIds ++ c2.sentenceIds).length : ℕ) : ℝ))
        c1.centroid c2.centroid) =
      .ok (confidenceValue
        (pool.filter (fun s => (c1.sentenceIds ++ c2.sentenceIds).contains s.id))
        (weightedCentroid
          ((c1.sentenceIds.length : ℝ) /
            (((c1.sentenceIds ++ c2.sentenceIds).length : ℕ) : ℝ))
          ((c2.sentenceIds.length : ℝ) /
            (((c1.sentenceIds ++ c2.sentenceIds).length : ℕ) : ℝ))
          c1.centroid c2.centroid)) := by
    refine calculateClusterConfidence_ok ?_
    intro s hs
    rw [weightedCentroid_length]
    exact hpool s (List.mem_of_mem_filter hs)
  constructor
  · unfold mergeClusters
    rw [if_neg (by simp [List.isEmpty_iff, h1, h2])]
    simp only [hcount, ne_eq, not_true_eq_false, if_false, ite_false, hconf, m_ok_bind]
    rw [weightedCentroid_eq_zipWith _ _ _ _ hdim2]
    rfl
  · simp

def c8s1 : SentenceWithEmbedding := { id := .inl 1, text := "hi", embedding := [1, 0] }
def c8s2 : SentenceWithEmbedding := { id := .inl 2, text := "hi", embedding := [1] }

def c8pool : List SentenceWithEmbedding := [c8s1, c8s2]

def c8c1 : Cluster :=
  { id := "x", sentenceIds := [.inl 1], centroid := [1], theme := "t", confidence := 1 }

def c8c2 : Cluster :=
  { id := "y", sentenceIds := [.inl 2], centroid := [1], theme := "t", confidence := 1 }

/-- C8 (counterexample): both clusters are non-empty and every member id is
resolvable in the pool, yet `mergeClusters` throws instead of returning the
merged cluster: the first pool embedding has a different dimension than the
merged centroid, so the confidence recomputation's cosine similarity throws
the dimension error.  The claim's unconditional success therefore fails. -/
theorem C8_counterexample :
    c8c1.sentenceIds ≠ [] ∧ c8c2.sentenceIds ≠ [] ∧
    (∀ i ∈ c8c1.sentenceIds ++ c8c2.sentenceIds, ∃ s ∈ c8pool, s.id = i) ∧
    mergeClusters "z" c8c1 c8c2 c8pool =
      .error (.validationError "Vectors must have the same dimension") := by
  exact ⟨by decide, by decide, by decide, rfl⟩

end ClusteringService

namespace ClusteringService

def c8c2ok : Cluster :=
  { id := "y", sentenceIds := [.inl 2], centroid := [2], theme := "t", confidence := 1 }

/-- Witness for C8 (amended) on a concrete merge of two singleton clusters
over a two-item pool with matching dimensions. -/
theorem C8_witness :
    mergeClusters "z" c8c1 c8c2ok [wItem1, wItem2] =
      .ok { id := "z"
            sentenceIds := c8c1.sentenceIds ++ c8c2ok.sentenceIds
            centroid := List.zipWith
              (fun x y =>
                x * ((c8c1.sentenceIds.length : ℝ) /
                  (((c8c1.sentenceIds ++ c8c2ok.sentenceIds).length : ℕ) : ℝ)) +
                y * ((c8c2ok.sentenceIds.length : ℝ) /
                  (((c8c1.sentenceIds ++ c8c2ok.sentenceIds).length : ℕ) : ℝ)))
              c8c1.centroid c8c2ok.centroid
            theme := generateTheme ([wItem1, wItem2].filter
              (fun s => (c8c1.sentenceIds ++ c8c2ok.sentenceIds).contains s.id))
            confidence := confidenceValue
              ([wItem1, wItem2].filter
                (fun s => (c8c1.sentenceIds ++ c8c2ok.sentenceIds).contains s.id))
              (weightedCentroid
                ((c8c1.sentenceIds.length : ℝ) /
                  (((c8c1.sentenceIds ++ c8c2ok.sentenceIds).length : ℕ) : ℝ))
                ((c8c2ok.sentenceIds.length : ℝ) /
                  (((c8c1.sentenceIds ++ c8c2ok.sentenceIds).length : ℕ) : ℝ))
                c8c1.centroid c8c2ok.centroid) } ∧
    (c8c1.sentenceIds ++ c8c2ok.sentenceIds).length =
      c8c1.sentenceIds.length + c8c2ok.sentenceIds.length :=
  C8_merge_amended (by decide) (by decide) rfl rfl
    (by intro s hs; fin_cases hs <;> rfl)

theorem validateEach_ok_of :
    ∀ {sentences : List SentenceWithEmbedding} (i : ℕ),
      (∀ s ∈ sentences, validNumericId s.id = true ∧
        ¬(s.text = "" ∨ s.text.data.all Char.isWhitespace) ∧
        s.embedding.isEmpty = false) →
      validateEach i sentences = .ok () := by
  intro sentences
  induction sentences with
  | nil => intro i _; rfl
  | cons a rest ih =>
    intro i h
    rw [validateEach, validateSentence_ok_iff.mpr (h a (by simp)), m_ok_bind]
    exact ih (i + 1) (fun s hs => h s (by simp [hs]))

theorem validateSentences_ok_of {sentences : List SentenceWithEmbedding}
    (hne : sentences.isEmpty = false) (hlen : sentences.length ≤ 10000)
    (hitems : ∀ s ∈ sentences, validNumericId s.id = true ∧
      ¬(s.text = "" ∨ s.text.data.all Char.isWhitespace) ∧
      s.embedding.isEmpty = false)
    (hdims : ∀ s0 ∈ sentences.head?, ∀ s ∈ sentences,
      s.embedding.length = s0.embedding.length) :
    validateSentences sentences = .ok () := by
  unfold validateSentences
  rw [if_neg (by simp [hne])]
  simp only [m_pure_eq, m_ok_bind]
  rw [if_neg (show ¬10000 < sentences.length by omega)]
  rw [validateEach_ok_of 0 hitems, m_ok_bind]
  cases sentences with
  | nil => rfl
  | cons a rest =>
    have hany : ((a :: rest).any
        (fun s => s.embedding.length != a.embedding.length)) = false := by
      rw [List.any_eq_false]
      intro s hs
      have := hdims a (by simp) s hs
      simp [this]
    simp [hany]

end ClusteringService

namespace ClusteringService

def c9zero : SentenceWithEmbedding := { id := .inl 0, text := "good", embedding := [1] }
def c9str : SentenceWithEmbedding := { id := .inr "k", text := "good", embedding := [1] }

/-- C9 (counterexample): validation REJECTS the id `0` and every string id,
although text and embedding are valid: `!sentence.id || typeof sentence.id
!== 'number'` throws on the falsy number `0` and on all strings, so the
accepted ids are exactly the nonzero numbers. -/
theorem C9_counterexample :
    validateSentences [c9zero] =
      .error (.validationError "Sentence at index 0 must have a valid numeric id") ∧
    validateSentences [c9str] =
      .error (.validationError "Sentence at index 0 must have a valid numeric id") ∧
    clusterSentences wGen [c9str] (1/2) =
      .error (.validationError "Sentence at index 0 must have a valid numeric id") ∧
    c9zero.text = "good" ∧ c9zero.embedding = [1] ∧
    c9str.text = "good" ∧ c9str.embedding = [1] :=
  ⟨rfl, rfl, rfl, rfl, rfl, rfl, rfl⟩

/-- C9 (amended): for an input that is otherwise valid — non-empty, within
the size bound, every text non-blank, every embedding non-empty and of the
dimension of the first — `validateSentences` succeeds IF AND ONLY IF every
sentence id is a nonzero integer.  String ids and the integer `0` are
rejected with the invalid-id error, contrary to the claim. -/
theorem C9_id_validation_amended {sentences : List SentenceWithEmbedding}
    (hne : sentences ≠ [])
    (hlen : sentences.length ≤ 10000)
    (htext : ∀ s ∈ sentences, ¬(s.text = "" ∨ s.text.data.all Char.isWhitespace))
    (hemb : ∀ s ∈ sentences, s.embedding ≠ [])
    (hdims : ∀ s0 ∈ sentences.head?, ∀ s ∈ sentences,
      s.embedding.length = s0.embedding.length) :
    validateSentences sentences = .ok () ↔
      ∀ s ∈ sentences, ∃ n : ℤ, n ≠ 0 ∧ s.id = .inl n := by
  constructor
  · intro h s hs
    have hv := (validateSentences_ok_inv h).2.2.1
    have hid0 := (validateEach_facts hv s hs).1
    rcases hid : s.id with n | str
    · rw [hid] at hid0
      refine ⟨n, ?_, rfl⟩
      simpa [validNumericId] using hid0
    · rw [hid] at hid0
      exact absurd hid0 (by simp [validNumericId])
  · intro hids
    refine validateSentences_ok_of (by simpa [List.isEmpty_iff] using hne) hlen ?_ hdims
    intro s hs
    obtain ⟨n, hn0, hn⟩ := hids s hs
    refine ⟨?_, htext s hs, by simpa [List.isEmpty_iff] using hemb s hs⟩
    rw [hn]
    simpa [validNumericId] using hn0

/-- Witness for C9 (amended) on a singleton input with id `1`: validation
succeeds, and the equivalence is instantiated concretely. -/
theorem C9_witness :
    validateSentences [wItem1] = .ok () ↔
      ∀ s ∈ [wItem1], ∃ n : ℤ, n ≠ 0 ∧ s.id = .inl n :=
  C9_id_validation_amended (by simp) (by simp) (by decide) (by decide)
    (by intro s0 hs0 s hs
        simp only [List.head?_cons, Option.mem_def, Option.some.injEq] at hs0
        subst hs0
        fin_cases hs
        rfl)

end ClusteringService
